import Mathlib

/-!
The nunjucks filesystem loader of apostrophe: a verification development for
`lib/modules/apostrophe-templates/lib/nunjucksLoader.js`, followed by the
login module, `lib/modules/apostrophe-login/index.js`.

JavaScript strings are modelled by `String`; the regular expression of
`getSource` only distinguishes ASCII word characters, the hyphen, the colon and
the four line terminators, so matching is described character by character.
-/

namespace NunjucksLoader

/-! ## The module-reference loop at the head of `getSource` -/

/-- The character class `[\w\-]`: ASCII letters, digits, underscore, hyphen. -/
def isWordOrHyphen (c : Char) : Bool :=
  c.isAlphanum || c == '_' || c == '-'

/-- The characters the regular-expression dot refuses: the four line
terminators of the language (LF, CR, U+2028, U+2029). -/
def isLineTerminator (c : Char) : Bool :=
  c == '\n' || c == '\r' || c == Char.ofNat 0x2028 || c == Char.ofNat 0x2029

/-- The call `name.match(/^([\w\-]{2,})\:(.+)$/)`: the two captured groups when
the expression matches, `none` when it does not.  The first group is greedy and
a colon is not in its class, so it can only be the longest run of class
characters at the start of `name`; the second group runs to the end of the
input and so may hold no line terminator. -/
def nameMatch (name : String) : Option (String × String) :=
  let w := name.data.takeWhile isWordOrHyphen
  match name.data.dropWhile isWordOrHyphen with
  | [] => none
  | c :: rest =>
    if c = ':' ∧ 2 ≤ w.length ∧ rest ≠ [] ∧ rest.all (fun d => !isLineTerminator d) then
      some (⟨w⟩, ⟨rest⟩)
    else none

/-- The variables `moduleName` and `modulePath` after the loop of `getSource`
(the spec calls them `moduleName` and `residualPath`).  The loop also leaves
the variable `name` equal to `modulePath`. -/
structure ModuleReference where
  moduleName : Option String
  modulePath : String
deriving DecidableEq, Repr

/-- The `while (true)` loop of `getSource`, entered with the current values of
`moduleName` and `name`: on a match `moduleName` and `name` are overwritten by
the two groups, otherwise `modulePath` is set to `name` and the loop is left. -/
def parseLoop (moduleName : Option String) (name : String) : ModuleReference :=
  match h : nameMatch name with
  | none => ⟨moduleName, name⟩
  | some (m, rest) => parseLoop (some m) rest
termination_by name.length
decreasing_by
  have hsplit := List.takeWhile_append_dropWhile isWordOrHyphen name.data
  have hlen : name.length = name.data.length := rfl
  have hrest : rest.length = rest.data.length := rfl
  unfold nameMatch at h
  split at h
  · simp at h
  · rename_i c r hd
    dsimp only at h
    split at h
    · simp only [Option.some.injEq, Prod.mk.injEq] at h
      rw [hd] at hsplit
      rw [hlen, hrest, ← hsplit, ← h.2]
      simp only [List.length_append, List.length_cons]
      omega
    · simp at h

/-- The module-reference parser: the loop run from `moduleName` undefined. -/
def parse (name : String) : ModuleReference :=
  parseLoop none name


/-! ## The environment of a loader -/

/-- A thrown JavaScript value; only its propagation matters here. -/
abbrev Error := String

/-- A token of the nunjucks lexer: its `type` and its `value`. -/
structure Token where
  type : String
  value : String
deriving DecidableEq, Repr

/-- What the loader calls but does not define: the `fs` and `path` modules of
Node, the `getViewFolders` method of the templates module (applied to
`apos.modules[moduleName]`, hence a function of the module name) and the
nunjucks lexer, whose `nextToken` yields the tokens of a source one by one or
throws.  `path.join` never returns the empty string (an empty result is
rendered as a single dot). -/
structure Env where
  existsSync : String → Bool
  readFileSync : String → Except Error String
  join : String → String → String
  normalize : String → String
  getViewFolders : String → List String
  lex : String → Except Error (List Token)
  join_ne_empty : ∀ a b, join a b ≠ ""

/-! ## `resolveTemplatePathsViaModule` -/

/-- The call `s.replace(/c/g, r)` for a one-character pattern `c` and a
replacement `r` without dollar signs: every occurrence of `c` becomes `r`. -/
def replaceAll (c : Char) (r : String) (s : String) : String :=
  ⟨s.data.flatMap (fun d => if d = c then r.data else [d])⟩

/-- The text pushed back out for one token: strings and regexes are quoted
again, with the delimiter escaped by a backslash; any other token is its
value. -/
def tokenText (token : Token) : String :=
  if token.type = "string" then
    "\"" ++ replaceAll '"' "\\\"" token.value ++ "\""
  else if token.type = "regex" then
    "/" ++ replaceAll '/' "\\/" token.value ++ "/"
  else
    token.value

/-- The four symbols after which a template path follows. -/
def pathKeywords : List String := ["include", "import", "extends", "from"]

/-- The two variables of the token loop: the output so far and `state`. -/
structure Rewriter where
  out : String
  state : String
deriving DecidableEq, Repr

/-- One turn of the loop `while (token = lexer.nextToken())`. -/
def rewriteToken (moduleName : String) (r : Rewriter) (token : Token) : Rewriter :=
  let out := r.out ++ tokenText token
  if token.type = "block-start" then
    { out := out, state := "block" }
  else if token.type = "symbol" ∧ token.value ∈ pathKeywords then
    { out := out ++ (" \"" ++ moduleName ++ ":\" +"), state := "boring" }
  else if token.type = "block-end" then
    { out := out, state := "boring" }
  else
    { out := out, state := r.state }

/-- The token loop over a whole token stream, from `out = ''` and
`state = 'boring'`. -/
def rewriteTokens (moduleName : String) (tokens : List Token) : String :=
  (tokens.foldl (rewriteToken moduleName) { out := "", state := "boring" }).out

/-- The method `resolveTemplatePathsViaModule(src, moduleName)`; an error of
the lexer propagates. -/
def resolveTemplatePathsViaModule (env : Env) (src moduleName : String) : Except Error String :=
  match env.lex src with
  | .error e => .error e
  | .ok tokens => .ok (rewriteTokens moduleName tokens)

/-! ## The loader object -/

/-- The members that every plain object inherits from `Object.prototype`: the
name of each and, when the member is a function, its `length` (the member
under `__proto__` is the prototype object itself, which has no `length`). -/
def objectPrototypeMembers : List (String × Option Nat) :=
  [("constructor", some 1), ("__defineGetter__", some 2), ("__defineSetter__", some 2),
    ("hasOwnProperty", some 1), ("__lookupGetter__", some 1), ("__lookupSetter__", some 1),
    ("isPrototypeOf", some 1), ("propertyIsEnumerable", some 1), ("toString", some 0),
    ("valueOf", some 0), ("__proto__", none), ("toLocaleString", some 0)]

/-- The names under which a plain object has an inherited member. -/
def inheritedNames : List String :=
  objectPrototypeMembers.map (fun member => member.1)

/-- The `length` of the member inherited under `name`; 0 when there is no
member of that name or the member has no `length`. -/
def inheritedLength (name : String) : Nat :=
  match objectPrototypeMembers.lookup name with
  | some (some n) => n
  | _ => 0

/-- A value read from a plain object that is used as a map to strings: a
string that was assigned, the member inherited under a name, or undefined. -/
inductive Value where
  | string (s : String)
  | inherited (name : String)
  | undefined
deriving DecidableEq, Repr

instance : Coe String Value := ⟨Value.string⟩

/-- The fields of `self` that `init` and `getSource` read and write.
`pathsToNames` is the object used as a map from paths to names, given by its
own properties: `none` when the path was not assigned.  The members the object
inherits come in through `inMapping` and `readMapping`. -/
structure Loader where
  pathsToNames : String → Option String
  searchPaths : List String

/-- The assignment `pathsToNames[path] = name`.  Under the name `__proto__` the
assignment of a string is ignored; under any other name it sets an own
property. -/
def setName (m : String → Option String) (path name : String) : String → Option String :=
  if path = "__proto__" then m else fun k => if k = path then some name else m k

/-- The test `key in pathsToNames`: an own property or an inherited member. -/
def inMapping (m : String → Option String) (key : String) : Bool :=
  (m key).isSome || decide (key ∈ inheritedNames)

/-- The read `pathsToNames[key]`: the own property when there is one, else the
inherited member, else undefined. -/
def readMapping (m : String → Option String) (key : String) : Value :=
  match m key with
  | some name => .string name
  | none => if key ∈ inheritedNames then .inherited key else .undefined

/-- The first argument of the constructor: nothing, one path or an array. -/
inductive SearchPathsArg where
  | missing
  | single (p : String)
  | array (ps : List String)

/-- The method `init(searchPaths, noWatch)`: the new fields of `self`, and the
directories on which `fs.watch` is called. -/
def init (env : Env) (searchPaths : SearchPathsArg) (noWatch : Bool) : Loader × List String :=
  let paths : List String :=
    match searchPaths with
    | .missing => []
    | .single p => if p = "" then [] else [env.normalize p]
    | .array ps => ps.map env.normalize
  ({ pathsToNames := fun _ => none, searchPaths := paths },
    if noWatch then [] else paths.filter env.existsSync)

/-- A call of `self.emit(name, args...)`. -/
structure Emission where
  name : String
  args : List Value
deriving DecidableEq, Repr

/-- The callback given to `fs.watch` for the directory `p`, called with
`(event, filename)`; `filename` may be null.  It returns the loader as it
leaves it and the calls of `self.emit` it makes. -/
def watchCallback (env : Env) (self : Loader) (p : String) (event : String)
    (filename : Option String) : Loader × List Emission :=
  match filename with
  | none => (self, [])
  | some f =>
    if f = "" then (self, [])
    else
      let fullname := env.join p f
      if event = "change" ∧ inMapping self.pathsToNames fullname = true then
        (self, [{ name := "update", args := [readMapping self.pathsToNames fullname] }])
      else (self, [])

/-- The value `{ src: src, path: fullpath }` that `getSource` returns. -/
structure Source where
  src : String
  path : String
deriving DecidableEq, Repr

/-- The loop `while (i < dirs.length)` of `getSource`, from the directory at
index `i` on; `dirs` is what is left of the list. -/
def searchViewFolders (env : Env) (self : Loader) (moduleName modulePath name : String) :
    List String → Loader × Except Error (Option Source)
  | [] => (self, .ok none)
  | dir :: dirs =>
    let fullpath := dir ++ "/" ++ modulePath
    if env.existsSync fullpath then
      ({ self with pathsToNames := setName self.pathsToNames fullpath name },
        match env.readFileSync fullpath with
        | .error e => .error e
        | .ok src =>
          match resolveTemplatePathsViaModule env src moduleName with
          | .error e => .error e
          | .ok src => .ok (some { src := src, path := fullpath }))
    else searchViewFolders env self moduleName modulePath name dirs

/-- The end of `getSource`, from `_.find(self.searchPaths, ...)` on: the search
of the loader's own directories. -/
def searchOwnPaths (env : Env) (self : Loader) (name : String) :
    Loader × Except Error (Option Source) :=
  let fullpath : Option String :=
    match self.searchPaths.find? (fun searchPath => env.existsSync (env.join searchPath name)) with
    | some searchPath => some (env.join searchPath name)
    | none => none
  match fullpath with
  | none => (self, .ok none)
  | some fullpath =>
    if fullpath = "" then (self, .ok none)
    else
      ({ self with pathsToNames := setName self.pathsToNames fullpath name },
        match env.readFileSync fullpath with
        | .error e => .error e
        | .ok src => .ok (some { src := src, path := fullpath }))

/-- The method `getSource(name)`: the loader afterwards, and the value returned
(`none` for null) or the error thrown.  After the loop the variable `name`
holds the same string as `modulePath`. -/
def getSource (env : Env) (self : Loader) (name : String) :
    Loader × Except Error (Option Source) :=
  let ref := parse name
  let name := ref.modulePath
  match ref.moduleName with
  | some moduleName =>
    if moduleName = "" then searchOwnPaths env self name
    else searchViewFolders env self moduleName ref.modulePath name (env.getViewFolders moduleName)
  | none => searchOwnPaths env self name

/-! ## Sequences of calls -/

/-- A call of `getSource`: the environment at the time of the call and the
argument. -/
structure Call where
  env : Env
  name : String

/-- A sequence of calls of `getSource` on one loader, the earliest first: the
loader afterwards and, for every call, what it returned or threw. -/
def getSources (self : Loader) : List Call → Loader × List (Call × Except Error (Option Source))
  | [] => (self, [])
  | c :: cs =>
    let r := getSource c.env self c.name
    let rest := getSources r.1 cs
    (rest.1, (c, r.2) :: rest.2)

/-- The call with the outcome `o` accounts for the path `k`: it returned `k`,
or it threw while `k` existed. -/
def Selected (o : Call × Except Error (Option Source)) (k : String) : Prop :=
  (∃ src, o.2 = .ok (some { src := src, path := k })) ∨
    (∃ e, o.2 = .error e ∧ o.1.env.existsSync k = true)

/-! ## Inputs of the examples -/

/-- The token stream of the directive that includes the template `p`: the
source `{% include "p" %}` as the nunjucks lexer cuts it, the string token
holding the path `p` that the literal denotes. -/
def includeTokens (p : String) : List Token :=
  [⟨"block-start", "\x7b%"⟩, ⟨"whitespace", " "⟩, ⟨"symbol", "include"⟩, ⟨"whitespace", " "⟩,
    ⟨"string", p⟩, ⟨"whitespace", " "⟩, ⟨"block-end", "%\x7d"⟩]

/-- A small project with the directories `/d1`, `/d2`, `/views` and
`/blog/views`: `x.html` lies in both `/d1` and `/d2` with different contents,
the module `blog` has the view folders `/project/blog/views` and `/blog/views`
of which only the second holds `foo.html`, and `/views/partials` is a
directory, which exists but cannot be read as a file.  `path.join` is
needed on a directory and a plain file name only. -/
def exampleEnv : Env where
  existsSync := fun p =>
    decide (p ∈ ["/d1", "/d2", "/views", "/blog/views",
      "/d1/x.html", "/d2/x.html", "/blog/views/foo.html", "/views/partials"])
  readFileSync := fun p =>
    if p = "/d1/x.html" then .ok "one"
    else if p = "/d2/x.html" then .ok "two"
    else if p = "/blog/views/foo.html" then .ok "\x7b% include \"bar.html\" %\x7d"
    else if p = "/views/partials" then .error "EISDIR"
    else .error "ENOENT"
  join := fun a b => a ++ "/" ++ b
  normalize := fun p => p
  getViewFolders := fun m => if m = "blog" then ["/project/blog/views", "/blog/views"] else []
  lex := fun src =>
    if src = "\x7b% include \"bar.html\" %\x7d" then .ok (includeTokens "bar.html")
    else .ok [⟨"data", src⟩]
  join_ne_empty := by
    intro a b h
    have hlen := congrArg String.length h
    simp only [String.length_append] at hlen
    have h1 : "/".length = 1 := rfl
    have h0 : "".length = 0 := rfl
    omega

/-- The shape "two or more word characters or hyphens, then a colon, then at
least one further character". -/
def HasModuleShape (name : String) : Prop :=
  ∃ w rest : String, name = w ++ ":" ++ rest ∧ 2 ≤ w.length ∧
    (∀ c ∈ w.data, isWordOrHyphen c = true) ∧ rest ≠ ""

/-! ## Sample templates -/

/-- The text put after a path keyword: `' "' + moduleName + ':" +'`. -/
def injection (moduleName : String) : String :=
  " \"" ++ moduleName ++ ":\" +"

/-- A symbol token that is one of the four path keywords. -/
def isPathKeyword (token : Token) : Bool :=
  decide (token.type = "symbol" ∧ token.value ∈ pathKeywords)

/-- What one turn of the token loop appends to the output: the text of the
token and, for a path keyword, the injected text. -/
def turnText (moduleName : String) (token : Token) : String :=
  tokenText token ++ (if isPathKeyword token then injection moduleName else "")

/-- The tokens of the source `{{ 'a' }}`: a string token holds the text between
its quotes, whichever quote the source used. -/
def quotedTokens : List Token :=
  [⟨"variable-start", "\x7b\x7b"⟩, ⟨"whitespace", " "⟩, ⟨"string", "a"⟩, ⟨"whitespace", " "⟩,
    ⟨"variable-end", "\x7d\x7d"⟩]

/-- The tokens of the source `{{ email.from }}`, a variable expression that
reads the property `from`. -/
def propertyTokens : List Token :=
  [⟨"variable-start", "\x7b\x7b"⟩, ⟨"whitespace", " "⟩, ⟨"symbol", "email"⟩,
    ⟨"operator", "."⟩, ⟨"symbol", "from"⟩, ⟨"whitespace", " "⟩, ⟨"variable-end", "\x7d\x7d"⟩]

/-- The tokens of the source `{% if a %}{{ a.import }}{% endif %}`: a variable
expression between two blocks. -/
def betweenBlocksTokens : List Token :=
  [⟨"block-start", "\x7b%"⟩, ⟨"whitespace", " "⟩, ⟨"symbol", "if"⟩, ⟨"whitespace", " "⟩,
    ⟨"symbol", "a"⟩, ⟨"whitespace", " "⟩, ⟨"block-end", "%\x7d"⟩,
    ⟨"variable-start", "\x7b\x7b"⟩, ⟨"whitespace", " "⟩, ⟨"symbol", "a"⟩, ⟨"operator", "."⟩,
    ⟨"symbol", "import"⟩, ⟨"whitespace", " "⟩, ⟨"variable-end", "\x7d\x7d"⟩,
    ⟨"block-start", "\x7b%"⟩, ⟨"whitespace", " "⟩, ⟨"symbol", "endif"⟩, ⟨"whitespace", " "⟩,
    ⟨"block-end", "%\x7d"⟩]

/-- The example project with the lexer given on the sample templates; a source
without any tag is a single data token. -/
def templateEnv : Env :=
  { exampleEnv with
    lex := fun src =>
      if src = "\x7b\x7b 'a' \x7d\x7d" then .ok quotedTokens
      else if src = "\x7b\x7b email.from \x7d\x7d" then .ok propertyTokens
      else if src = "\x7b% if a %\x7d\x7b\x7b a.import \x7d\x7d\x7b% endif %\x7d" then
        .ok betweenBlocksTokens
      else .ok [⟨"data", src⟩] }

/-! ## `on` and `emit` -/

/-- A callback given to `on`: called with the arguments of an emission it
changes the world `σ` around the loader, and it may throw. -/
abbrev Listener (σ : Type) := List String → σ → σ × Option Error

/-- The field `listeners` of the loader, apart from the others: undefined, or
an object from event names to arrays of callbacks.  The function gives the
names that hold an array; every other name of `inheritedNames` reads as the
inherited member, as for `pathsToNames`. -/
structure Listeners (σ : Type) where
  listeners : Option (String → Option (List (Listener σ)))

/-- The loader as constructed: `listeners` is not set. -/
def Listeners.fresh (σ : Type) : Listeners σ :=
  { listeners := none }

/-- The error of `self.listeners[name].push(func)` when what is read under
`name` is an inherited member, which has no `push`. -/
def pushTypeError : Error := "TypeError: self.listeners[name].push is not a function"

/-- The error of `listener.apply(null, args)` when `listener` is undefined. -/
def applyTypeError : Error := "TypeError: Cannot read property apply of undefined"

/-- The method `on(name, func)`; the word `on` is reserved here, hence the
longer name.  The result is the loader afterwards and the error thrown, if
any.  `self.listeners` becomes an object first.  Under a name that holds an
array the callback is pushed at the end.  Under a name that holds none,
`self.listeners[name] || []` is a new array unless `name` is the name of an
inherited member: then it is that member, the assignment keeps it, and `push`
is not a function. -/
def onEvent {σ : Type} (self : Listeners σ) (name : String) (func : Listener σ) :
    Listeners σ × Option Error :=
  let listeners : String → Option (List (Listener σ)) :=
    match self.listeners with
    | some l => l
    | none => fun _ => none
  match listeners name with
  | some array =>
    ({ listeners := some (fun k => if k = name then some (array ++ [func]) else listeners k) },
      none)
  | none =>
    if name ∈ inheritedNames then ({ listeners := some listeners }, some pushTypeError)
    else
      ({ listeners := some (fun k => if k = name then some ([] ++ [func]) else listeners k) },
        none)

/-- The loop `_.each(self.listeners[name], ...)` over an array: the callbacks
are applied in turn; a callback that throws ends the loop and its error goes
on to the caller. -/
def callEach {σ : Type} : List (Listener σ) → List String → σ → σ × Option Error
  | [], _, w => (w, none)
  | listener :: rest, args, w =>
    match listener args w with
    | (w1, some e) => (w1, some e)
    | (w1, none) => callEach rest args w1

/-- The method `emit(name, args...)`: the world afterwards and the error
thrown, if any.  Without `self.listeners` nothing happens.  Under a name that
holds an array the callbacks run.  Under another name, what is read is
undefined, and nothing happens, or an inherited member, which is truthy:
`_.each` (lodash 3) takes a function for an array-like of its `length`, so for
a function of length one or more the first `listener` is undefined and
`listener.apply` throws, and for a function of length zero and for the
prototype object itself the loop has no turn. -/
def emit {σ : Type} (self : Listeners σ) (name : String) (args : List String) (w : σ) :
    σ × Option Error :=
  match self.listeners with
  | none => (w, none)
  | some listeners =>
    match listeners name with
    | some array => callEach array args w
    | none => if 1 ≤ inheritedLength name then (w, some applyTypeError) else (w, none)

/-- The array `self.listeners[name]`, empty when there is none. -/
def listenersOf {σ : Type} (self : Listeners σ) (name : String) : List (Listener σ) :=
  match self.listeners with
  | none => []
  | some listeners =>
    match listeners name with
    | none => []
    | some array => array

/-- A sequence of calls of `on`, the earliest first; a call that throws is
followed by the next call all the same. -/
def register {σ : Type} (self : Listeners σ) (regs : List (String × Listener σ)) : Listeners σ :=
  regs.foldl (fun s r => (onEvent s r.1 r.2).1) self

/-- The callbacks among `regs` that were registered under `name`, in order.
Under the name of an inherited member there is none: on a new loader every
such call of `on` throws before it pushes. -/
def registeredUnder {σ : Type} (name : String) (regs : List (String × Listener σ)) :
    List (Listener σ) :=
  if name ∈ inheritedNames then []
  else (regs.filter (fun r => decide (r.1 = name))).map (fun r => r.2)

/-- No name of an inherited member holds an array: what every state reached
from a new loader by calls of `on` has in common. -/
def NoInheritedArray {σ : Type} (self : Listeners σ) : Prop :=
  ∀ l, self.listeners = some l → ∀ n ∈ inheritedNames, l n = none

/-- A callback that notes its own label and the arguments it was called with
in a log. -/
def logger (label : String) : Listener (List (String × List String)) :=
  fun args log => (log ++ [(label, args)], none)

/-- A callback that notes its call like `logger` and then throws `e`. -/
def thrower (label : String) (e : Error) : Listener (List (String × List String)) :=
  fun args log => (log ++ [(label, args)], some e)

end NunjucksLoader

/-! # The login module

The methods `loginDeserialize`, `verifyLogin` and `checkPasswordRules` of
`lib/modules/apostrophe-login/index.js`, with the standard password rules. -/

namespace Login

/-- A JavaScript error value. -/
abbrev Error := String

/-! ## `loginDeserialize` -/

/-- A group of a user; the property `permissions` may be missing. -/
structure Group where
  permissions : Option (List String)
deriving DecidableEq, Repr

/-- The properties of a user that `loginDeserialize` reads and writes.  The
object `_permissions` only ever holds properties set to `true`; it is given by
its keys, in the order in which they were set.  Permission names are taken to
be ordinary property names. -/
structure User where
  _groups : Option (List Group)
  permissions : Option (List String)
  _permissions : List String
deriving DecidableEq, Repr

/-- The assignment `user._permissions[permission] = true`, on the list of the
names that are set to `true`.  Under the name `__proto__` the assignment of a
boolean is ignored: no property is made and the object is as before. -/
def grant (perms : List String) (permission : String) : List String :=
  if permission = "__proto__" then perms
  else if permission ∈ perms then perms else perms ++ [permission]

/-- The test `key.match(...)` against the regular expression `^admin-`. -/
def matchesAdmin (key : String) : Bool :=
  key.data.take 6 == ['a', 'd', 'm', 'i', 'n', '-']

/-- The first half of `loginDeserialize`: `_permissions` starts empty and
receives the permissions of every group, then those of the user. -/
def collectPermissions (user : User) : List String :=
  let perms : List String := []
  let groups : List Group :=
    match user._groups with
    | some gs => gs
    | none => []
  let perms := groups.foldl
    (fun (perms : List String) (group : Group) =>
      (match group.permissions with
        | some ps => ps
        | none => []).foldl grant perms)
    perms
  (match user.permissions with
    | some ps => ps
    | none => []).foldl grant perms

/-- The second half of `loginDeserialize`: the three `if` statements that make
the standard permissions progressive. -/
def makeProgressive (perms : List String) : List String :=
  let perms := if "admin" ∈ perms then grant perms "edit" else perms
  let perms := if "edit" ∈ perms then grant perms "guest" else perms
  if perms.any matchesAdmin then grant (grant perms "guest") "edit" else perms

/-- The method `loginDeserialize(user)`: the user with `_permissions` built
anew. -/
def loginDeserialize (user : User) : User :=
  { user with _permissions := makeProgressive (collectPermissions user) }

/-! ## `verifyLogin` -/

/-- The second argument the callback of `verifyLogin` receives: none at all,
`false`, or the user. -/
inductive Second (U : Type) where
  | undefined
  | no
  | user (u : U)
deriving DecidableEq, Repr

/-- The method `verifyLogin(username, password, callback)` in
continuation-passing style, with an answer type `R`.  `find` stands for
`self.apos.users.find(req, query).toObject` with the query built from
`username`, `verifyPassword` for `self.apos.users.verifyPassword` and
`setTimeout` for the timer, which is given the answer of the delayed function
and the delay. -/
def verifyLogin {U R : Type} (find : String → (Option Error → Option U → R) → R)
    (verifyPassword : U → String → (Option Error → R) → R) (setTimeout : R → Nat → R)
    (username password : String) (callback : Option Error → Second U → R) : R :=
  find username (fun err user =>
    match err with
    | some e => callback (some e) .undefined
    | none =>
      match user with
      | none => setTimeout (callback none .no) 1000
      | some u =>
        verifyPassword u password (fun err =>
          match err with
          | some _ => setTimeout (callback none .no) 1000
          | none => callback none (.user u)))

/-- The calls of the callback when the lookup answers once with `(err, user)`,
password verification answers once with `verify user password` and the timer
runs the delayed function: each call is noted with its two arguments. -/
def verifyLoginCalls {U : Type} (err : Option Error) (user : Option U)
    (verify : U → String → Option Error) (username password : String) :
    List (Option Error × Second U) :=
  verifyLogin (fun _ k => k err user) (fun u pw k => k (verify u pw)) (fun r _ => r)
    username password (fun e s => [(e, s)])

/-! ## `checkPasswordRules` -/

/-- The UTF-16 code units of a character: one, or a surrogate pair. -/
def utf16 (c : Char) : List Nat :=
  if c.toNat < 0x10000 then [c.toNat]
  else [0xD800 + (c.toNat - 0x10000) / 0x400, 0xDC00 + (c.toNat - 0x10000) % 0x400]

/-- The code units of a string: `charAt(i)` is the unit at index `i`, and the
empty string when there is none. -/
def codeUnits (s : String) : List Nat :=
  s.data.flatMap utf16

/-- The property `length` of a string. -/
def jsLength (s : String) : Nat :=
  (codeUnits s).length

/-- A password rule: its test and its message. -/
structure Rule where
  test : String → Bool
  message : String

/-- The options the password check reads; either may be unset. -/
structure Options where
  passwordMinLength : Option Nat
  passwordRules : Option (List String)

/-- The module object: its options and the object `self.passwordRules`, from
rule names to rules. -/
structure Module where
  options : Options
  passwordRules : String → Option Rule

/-- The value `self.options.passwordMinLength || 1`. -/
def minLength (options : Options) : Nat :=
  match options.passwordMinLength with
  | none => 1
  | some n => if n = 0 then 1 else n

/-- The message pushed when the password is too short. -/
def lengthMessage (minLength : Nat) : String :=
  "Passwords must be at least " ++ toString minLength ++ " characters long."

/-- The loop `_.each(self.options.passwordRules, ...)`, entered with the
errors so far.  A name that is not in `self.passwordRules` gives an undefined
rule, and reading its `test` throws. -/
def eachRule (rules : String → Option Rule) (password : String) :
    List String → List String → Except Error (List String)
  | [], errors => .ok errors
  | name :: names, errors =>
    match rules name with
    | none => .error "TypeError: Cannot read property 'test' of undefined"
    | some rule =>
      if rule.test password then eachRule rules password names errors
      else eachRule rules password names (errors ++ [rule.message])

/-- The method `checkPasswordRules(req, password)`; `translate` is `req.__`. -/
def checkPasswordRules (self : Module) (translate : String → String) (password : String) :
    Except Error (List String) :=
  let errors : List String := []
  let errors :=
    if jsLength password < minLength self.options then
      errors ++ [lengthMessage (minLength self.options)]
    else errors
  let errors : Except Error (List String) :=
    match self.options.passwordRules with
    | some names => eachRule self.passwordRules password names errors
    | none => .ok errors
  match errors with
  | .error e => .error e
  | .ok errors => .ok (errors.map translate)

/-- The class `\s` of regular expressions. -/
def isSpace (u : Nat) : Bool :=
  (0x09 ≤ u && u ≤ 0x0D) || u == 0x20 || u == 0xA0 || u == 0x1680 ||
    (0x2000 ≤ u && u ≤ 0x200A) || u == 0x2028 || u == 0x2029 || u == 0x202F ||
    u == 0x205F || u == 0x3000 || u == 0xFEFF

/-- The loop of the rule `noTripleRepeats` over the code units, at index `i`
with `turns` turns left: `length - 2 - i` of them, none when that is
negative. -/
def tripleLoop (units : List Nat) : Nat → Nat → Bool
  | 0, _ => true
  | turns + 1, i =>
    if units[i]? = units[i + 1]? ∧ units[i]? = units[i + 2]? then false
    else tripleLoop units turns (i + 1)

/-- The rule `noSlashes`. -/
def noSlashes : Rule where
  test := fun password => !(decide (47 ∈ codeUnits password) || decide (92 ∈ codeUnits password))
  message := "/ and \\ characters are not allowed in passwords."

/-- The rule `noSpaces`. -/
def noSpaces : Rule where
  test := fun password => !(codeUnits password).any isSpace
  message := "Spaces are not allowed in passwords."

/-- The rule `mixedCase`. -/
def mixedCase : Rule where
  test := fun password =>
    (codeUnits password).any (fun u => 97 ≤ u && u ≤ 122) &&
      (codeUnits password).any (fun u => 65 ≤ u && u ≤ 90)
  message := "Passwords must contain both uppercase and lowercase characters."

/-- The rule `digits`. -/
def digits : Rule where
  test := fun password => (codeUnits password).any (fun u => 48 ≤ u && u ≤ 57)
  message := "Passwords must contain digits."

/-- The rule `noTripleRepeats`. -/
def noTripleRepeats : Rule where
  test := fun password => tripleLoop (codeUnits password) ((codeUnits password).length - 2) 0
  message := "No character may be repeated three times in a row in a password."

/-- The object `self.passwordRules` as constructed. -/
def passwordRules : String → Option Rule := fun name =>
  if name = "noSlashes" then some noSlashes
  else if name = "noSpaces" then some noSpaces
  else if name = "mixedCase" then some mixedCase
  else if name = "digits" then some digits
  else if name = "noTripleRepeats" then some noTripleRepeats
  else none

/-- The method `addPasswordRule(name, test, message)`. -/
def addPasswordRule (self : Module) (name : String) (test : String → Bool) (message : String) :
    Module :=
  { self with
    passwordRules := fun k =>
      if k = name then some { test := test, message := message } else self.passwordRules k }

/-- The rule names of the option `passwordRules`, none when it is unset. -/
def ruleNames (options : Options) : List String :=
  match options.passwordRules with
  | some names => names
  | none => []

/-- The groups of a user, none when `_groups` is missing. -/
def groupsOf (user : User) : List Group :=
  match user._groups with
  | some gs => gs
  | none => []

/-- The permissions listed on a group, none when the property is missing. -/
def listedOn (group : Group) : List String :=
  match group.permissions with
  | some ps => ps
  | none => []

/-- The permissions listed on the user itself, none when the property is
missing. -/
def listedOnUser (user : User) : List String :=
  match user.permissions with
  | some ps => ps
  | none => []

/-- The messages of the rules among `names` that the password fails, in
order. -/
def failedMessages (rules : String → Option Rule) (password : String) (names : List String) :
    List String :=
  names.filterMap (fun name =>
    match rules name with
    | some rule => if rule.test password then none else some rule.message
    | none => none)

end Login

namespace NunjucksLoader

/-! ## Reading a string literal back -/

/-- Modelled from the spec: the string-literal rule of the template language,
"a backslash escapes the following character".  The text after the opening
quote is read up to the closing quote: the value read and the text that
follows the closing quote, or nothing when the literal does not end.  The flag
says that the character before was an escaping backslash. -/
def readEscaped : Bool → List Char → Option (List Char × List Char)
  | _, [] => none
  | true, c :: rest =>
    match readEscaped false rest with
    | some (v, after) => some (c :: v, after)
    | none => none
  | false, c :: rest =>
    if c = '\\' then readEscaped true rest
    else if c = '"' then some ([], rest)
    else
      match readEscaped false rest with
      | some (v, after) => some (c :: v, after)
      | none => none

/-- Modelled from the spec: the value that a text denotes when it is read as
one double-quoted string literal, nothing when it is not such a literal. -/
def readLiteral (s : String) : Option String :=
  match s.data with
  | [] => none
  | c :: body =>
    if c = '"' then
      match readEscaped false body with
      | some (v, []) => some ⟨v⟩
      | _ => none
    else none

/-- Modelled from the spec: the text `s` without the text `pre` at its head,
nothing when `s` does not start with `pre`. -/
def dropText : List Char → List Char → Option (List Char)
  | [], s => some s
  | _ :: _, [] => none
  | a :: pre, c :: s => if a = c then dropText pre s else none

/-- Modelled from the spec: "the include target it denotes", for a text that
is an include directive whose expression is the sum of two double-quoted
string literals, as the rewriter emits it: both literals are read by the
string-literal rule and the target is the first value followed by the second.
Nothing when the text is not of that form. -/
def includeTarget (text : String) : Option String :=
  match dropText "\x7b% include \"".data text.data with
  | none => none
  | some afterKeyword =>
    match readEscaped false afterKeyword with
    | none => none
    | some (first, afterFirst) =>
      match dropText " + \"".data afterFirst with
      | none => none
      | some afterPlus =>
        match readEscaped false afterPlus with
        | none => none
        | some (second, afterSecond) =>
          if afterSecond = " %\x7d".data then some ⟨first ++ second⟩ else none

/-! ## Counting the turns of the module-reference loop -/

/-- The loop at the head of `getSource` run for at most `fuel` turns: the
variables after the loop and the number of turns taken, the one that leaves
the loop included, or nothing when the loop has not been left by then. -/
def parseLoopFuel : Nat → Option String → String → Option (ModuleReference × Nat)
  | 0, _, _ => none
  | fuel + 1, moduleName, name =>
    match nameMatch name with
    | none => some (⟨moduleName, name⟩, 1)
    | some (m, rest) =>
      match parseLoopFuel fuel (some m) rest with
      | some (r, turns) => some (r, turns + 1)
      | none => none

/-! ## Paths that are not ordinary keys -/

/-- Modelled from the spec: "an absolute path", as `path.isAbsolute` tells it
for the path forms of POSIX and of Windows: a leading slash or backslash, or a
drive letter, a colon and a separator. -/
def isAbsolute (path : String) : Bool :=
  match path.data with
  | [] => false
  | c :: rest =>
    c == '/' || c == '\\' ||
      (c.isAlpha &&
        match rest with
        | d :: e :: _ => d == ':' && (e == '/' || e == '\\')
        | _ => false)

/-- A project that is run from its own directory: the search path is `.`, the
directory holds the files `constructor` and `__proto__`, and `path.join` of
`.` and a file name is the file name. -/
def dotEnv : Env where
  existsSync := fun p => decide (p ∈ [".", "constructor", "__proto__"])
  readFileSync := fun p =>
    if p = "constructor" then .ok "one"
    else if p = "__proto__" then .ok "two"
    else if p = "." then .error "EISDIR"
    else .error "ENOENT"
  join := fun a b =>
    if b = "" then (if a = "" then "." else a)
    else if a = "." ∨ a = "" then b
    else a ++ "/" ++ b
  normalize := fun p => p
  getViewFolders := fun _ => []
  lex := fun src => .ok [⟨"data", src⟩]
  join_ne_empty := by
    intro a b
    by_cases hb : b = ""
    · by_cases ha : a = ""
      · simp only [hb, ha, if_true]
        decide
      · simp only [hb, ha, if_true, if_false]
        exact ha
    · by_cases ha : a = "." ∨ a = ""
      · simp only [hb, ha, if_true, if_false]
        exact hb
      · simp only [hb, ha, if_false]
        intro h
        have hlen := congrArg String.length h
        simp only [String.length_append] at hlen
        have h1 : "/".length = 1 := rfl
        have h0 : "".length = 0 := rfl
        omega

/-! ## Matching -/

theorem isLineTerminator_of_isWordOrHyphen {c : Char} (h : isWordOrHyphen c = true) :
    isLineTerminator c = false := by
  cases hlt : isLineTerminator c with
  | false => rfl
  | true =>
    exfalso
    simp only [isLineTerminator, Bool.or_eq_true, beq_iff_eq] at hlt
    rcases hlt with ((h1 | h1) | h1) | h1 <;> subst h1 <;> revert h <;> decide

theorem takeWhile_run {α : Type} (q : α → Bool) (w : List α) (c : α) (r : List α)
    (hw : ∀ x ∈ w, q x = true) (hc : q c = false) :
    (w ++ c :: r).takeWhile q = w ∧ (w ++ c :: r).dropWhile q = c :: r := by
  induction w with
  | nil => simp [List.takeWhile, List.dropWhile, hc]
  | cons a t ih =>
    have ha : q a = true := hw a (List.mem_cons_self a t)
    have ht := ih (fun x hx => hw x (List.mem_cons_of_mem a hx))
    simp [List.takeWhile, List.dropWhile, ha, ht.1, ht.2]

/-- What a match says about the name: it is the first group, a colon and the
second group, with the first group at least two class characters and the
second non-empty and free of line terminators. -/
theorem nameMatch_data {name m rest : String} (h : nameMatch name = some (m, rest)) :
    name.data = m.data ++ ':' :: rest.data ∧ 2 ≤ m.data.length ∧ rest.data ≠ [] ∧
      (∀ c ∈ m.data, isWordOrHyphen c = true) ∧
      (∀ c ∈ rest.data, isLineTerminator c = false) := by
  unfold nameMatch at h
  have hsplit := List.takeWhile_append_dropWhile isWordOrHyphen name.data
  cases hd : name.data.dropWhile isWordOrHyphen with
  | nil => simp [hd] at h
  | cons c r =>
    simp only [hd] at h
    split at h
    · rename_i hc
      obtain ⟨hc1, hc2, hc3, hc4⟩ := hc
      simp only [Option.some.injEq, Prod.mk.injEq] at h
      obtain ⟨h1, h2⟩ := h
      subst h1 h2
      subst hc1
      refine ⟨?_, hc2, hc3, ?_, ?_⟩
      · rw [hd] at hsplit
        exact hsplit.symm
      · intro x hx
        exact List.mem_takeWhile_imp hx
      · intro x hx
        have := List.all_eq_true.mp hc4 x hx
        simpa using this
    · simp at h

/-- Every name of that form matches, with exactly these two groups. -/
theorem nameMatch_append (m rest : String) (hm : 2 ≤ m.length)
    (hw : ∀ c ∈ m.data, isWordOrHyphen c = true) (hr : rest ≠ "")
    (hl : ∀ c ∈ rest.data, isLineTerminator c = false) :
    nameMatch (m ++ ":" ++ rest) = some (m, rest) := by
  have hdata : (m ++ ":" ++ rest).data = m.data ++ ':' :: rest.data := by
    simp [String.data_append]
  have hrun := takeWhile_run isWordOrHyphen m.data ':' rest.data hw (by decide)
  have hne : rest.data ≠ [] := by
    intro h0
    apply hr
    exact String.ext h0
  have hall : (rest.data.all fun d => !isLineTerminator d) = true := by
    rw [List.all_eq_true]
    intro x hx
    simp [hl x hx]
  have hm2 : 2 ≤ m.data.length := hm
  unfold nameMatch
  simp only [hdata, hrun.1, hrun.2]
  simp [hm, hm2, hne, hr, hall]

theorem parseLoop_of_none {name : String} (moduleName : Option String)
    (h : nameMatch name = none) : parseLoop moduleName name = ⟨moduleName, name⟩ := by
  rw [parseLoop]
  split
  · rfl
  · rename_i m rest hm
    rw [h] at hm
    cases hm

theorem parseLoop_of_some {name m rest : String} (moduleName : Option String)
    (h : nameMatch name = some (m, rest)) :
    parseLoop moduleName name = parseLoop (some m) rest := by
  rw [parseLoop]
  split
  · rename_i hn
    rw [h] at hn
    cases hn
  · rename_i m2 rest2 hm
    rw [h] at hm
    cases hm
    rfl

theorem nameMatch_none_of_not_shape {name : String} (h : ¬ HasModuleShape name) :
    nameMatch name = none := by
  cases hm : nameMatch name with
  | none => rfl
  | some g =>
    obtain ⟨m, rest⟩ := g
    exfalso
    apply h
    obtain ⟨h1, h2, h3, h4, _⟩ := nameMatch_data hm
    refine ⟨m, rest, ?_, h2, h4, ?_⟩
    · apply String.ext
      simp [String.data_append, h1]
    · intro h0
      apply h3
      rw [h0]

theorem parse_of_none {name : String} (h : nameMatch name = none) :
    parse name = ⟨none, name⟩ :=
  parseLoop_of_none none h

theorem nameMatch_of_parse_module {name : String} (h : (parse name).moduleName ≠ none) :
    ∃ m rest, nameMatch name = some (m, rest) := by
  cases hm : nameMatch name with
  | none =>
    exfalso
    apply h
    rw [parse_of_none hm]
  | some g => exact ⟨g.1, g.2, rfl⟩

theorem nameMatch_length {name m rest : String} (h : nameMatch name = some (m, rest)) :
    rest.length + 3 ≤ name.length := by
  obtain ⟨h1, h2, _, _, _⟩ := nameMatch_data h
  have hn : name.length = name.data.length := rfl
  have hr : rest.length = rest.data.length := rfl
  rw [hn, h1, hr]
  simp only [List.length_append, List.length_cons]
  omega

/-- Induction along the turns of the loop. -/
theorem parseLoop_induction {P : Option String → String → ModuleReference → Prop}
    (hnone : ∀ mn name, nameMatch name = none → P mn name ⟨mn, name⟩)
    (hsome : ∀ mn name m rest, nameMatch name = some (m, rest) →
      P (some m) rest (parseLoop (some m) rest) → P mn name (parseLoop (some m) rest))
    (mn : Option String) (name : String) : P mn name (parseLoop mn name) := by
  generalize hk : name.length = k
  induction k using Nat.strong_induction_on generalizing mn name with
  | _ k ih =>
    cases hm : nameMatch name with
    | none =>
      rw [parseLoop_of_none mn hm]
      exact hnone _ _ hm
    | some g =>
      obtain ⟨m, rest⟩ := g
      rw [parseLoop_of_some mn hm]
      apply hsome _ _ _ _ hm
      have hlen := nameMatch_length hm
      exact ih rest.length (by omega) (some m) rest rfl

/-- The loop never forgets that a module name was found, and a module name it
finds has two characters or more. -/
theorem parseLoop_module (mn : Option String) (name : String) :
    (mn ≠ none → (parseLoop mn name).moduleName ≠ none) ∧
      ((∀ x, mn = some x → 2 ≤ x.length) →
        ∀ x, (parseLoop mn name).moduleName = some x → 2 ≤ x.length) := by
  refine parseLoop_induction
    (P := fun mn _ r => (mn ≠ none → r.moduleName ≠ none) ∧
      ((∀ x, mn = some x → 2 ≤ x.length) → ∀ x, r.moduleName = some x → 2 ≤ x.length))
    ?_ ?_ mn name
  · intro mn name _
    exact ⟨fun h => h, fun h => h⟩
  · intro mn name m rest hm ih
    refine ⟨fun _ => ih.1 (by simp), fun _ => ih.2 ?_⟩
    intro x hx
    cases hx
    exact (nameMatch_data hm).2.1

theorem nameMatch_none_of_parse {name : String} (h : (parse name).moduleName = none) :
    nameMatch name = none := by
  cases hm : nameMatch name with
  | none => rfl
  | some g =>
    exfalso
    obtain ⟨m, rest⟩ := g
    unfold parse at h
    rw [parseLoop_of_some none hm] at h
    exact (parseLoop_module (some m) rest).1 (by simp) h

theorem parse_module_ne_empty {name m : String} (h : (parse name).moduleName = some m) :
    m ≠ "" := by
  have h2 := (parseLoop_module none name).2 (by simp) m h
  intro h0
  rw [h0] at h2
  revert h2
  decide

/-! ## The two searches of `getSource` -/

theorem getSource_of_none (env : Env) (self : Loader) {name : String}
    (h : (parse name).moduleName = none) :
    getSource env self name = searchOwnPaths env self name := by
  have hp := parse_of_none (nameMatch_none_of_parse h)
  unfold getSource
  simp only [hp]

theorem getSource_of_module (env : Env) (self : Loader) {name m r : String}
    (h : parse name = ⟨some m, r⟩) :
    getSource env self name = searchViewFolders env self m r r (env.getViewFolders m) := by
  have hne : m ≠ "" := @parse_module_ne_empty name m (by rw [h])
  unfold getSource
  simp only [h, hne, if_false]

theorem find_first {α : Type} (q : α → Bool) (pre : List α) (d : α) (post : List α)
    (hpre : ∀ x ∈ pre, q x = false) (hd : q d = true) :
    (pre ++ d :: post).find? q = some d := by
  induction pre with
  | nil => simp [List.find?, hd]
  | cons a t ih =>
    have ha : q a = false := hpre a (List.mem_cons_self a t)
    simp only [List.cons_append, List.find?, ha]
    exact ih (fun x hx => hpre x (List.mem_cons_of_mem a hx))

theorem searchOwnPaths_first (env : Env) (self : Loader) (name : String)
    (pre : List String) (d : String) (post : List String)
    (hsp : self.searchPaths = pre ++ d :: post)
    (hpre : ∀ x ∈ pre, env.existsSync (env.join x name) = false)
    (hd : env.existsSync (env.join d name) = true) :
    searchOwnPaths env self name =
      ({ self with pathsToNames := setName self.pathsToNames (env.join d name) name },
        match env.readFileSync (env.join d name) with
        | .error e => .error e
        | .ok src => .ok (some { src := src, path := env.join d name })) := by
  have hfind := find_first (fun searchPath => env.existsSync (env.join searchPath name))
    pre d post hpre hd
  unfold searchOwnPaths
  rw [hsp, hfind]
  simp only [env.join_ne_empty d name, if_false]

theorem searchOwnPaths_absent (env : Env) (self : Loader) (name : String)
    (h : ∀ x ∈ self.searchPaths, env.existsSync (env.join x name) = false) :
    searchOwnPaths env self name = (self, .ok none) := by
  have hfind : self.searchPaths.find?
      (fun searchPath => env.existsSync (env.join searchPath name)) = none := by
    rw [List.find?_eq_none]
    intro x hx
    simp [h x hx]
  unfold searchOwnPaths
  rw [hfind]

theorem searchViewFolders_first (env : Env) (self : Loader) (m r name : String)
    (pre : List String) (d : String) (post : List String)
    (hpre : ∀ x ∈ pre, env.existsSync (x ++ "/" ++ r) = false)
    (hd : env.existsSync (d ++ "/" ++ r) = true) :
    searchViewFolders env self m r name (pre ++ d :: post) =
      ({ self with pathsToNames := setName self.pathsToNames (d ++ "/" ++ r) name },
        match env.readFileSync (d ++ "/" ++ r) with
        | .error e => .error e
        | .ok src =>
          match resolveTemplatePathsViaModule env src m with
          | .error e => .error e
          | .ok src => .ok (some { src := src, path := d ++ "/" ++ r })) := by
  induction pre with
  | nil => simp [searchViewFolders, hd]
  | cons a t ih =>
    have ha : env.existsSync (a ++ "/" ++ r) = false := hpre a (List.mem_cons_self a t)
    simp only [List.cons_append, searchViewFolders, ha]
    exact ih (fun x hx => hpre x (List.mem_cons_of_mem a hx))

theorem searchViewFolders_absent (env : Env) (self : Loader) (m r name : String)
    (dirs : List String) (h : ∀ x ∈ dirs, env.existsSync (x ++ "/" ++ r) = false) :
    searchViewFolders env self m r name dirs = (self, .ok none) := by
  induction dirs with
  | nil => rfl
  | cons a t ih =>
    have ha : env.existsSync (a ++ "/" ++ r) = false := h a (List.mem_cons_self a t)
    simp only [searchViewFolders, ha]
    exact ih (fun x hx => h x (List.mem_cons_of_mem a hx))

/-- What the search of the view folders returns depends on the file system,
the lexer and the list searched, not on the loader. -/
theorem searchViewFolders_result_congr (env env2 : Env) (self other : Loader)
    (m r name name2 : String) (dirs : List String)
    (hex : env2.existsSync = env.existsSync) (hrd : env2.readFileSync = env.readFileSync)
    (hlex : env2.lex = env.lex) :
    (searchViewFolders env2 other m r name2 dirs).2 =
      (searchViewFolders env self m r name dirs).2 := by
  induction dirs with
  | nil => rfl
  | cons a t ih =>
    simp only [searchViewFolders, hex, hrd]
    by_cases ha : env.existsSync (a ++ "/" ++ r) = true
    · simp only [ha, if_true, resolveTemplatePathsViaModule, hlex]
    · simp only [ha, if_false]
      exact ih

/-- What a search of the loader's own paths does to the loader: nothing when
it returns null; otherwise one path that exists is mapped to the name, and the
call returns that path or throws. -/
theorem searchOwnPaths_effect (env : Env) (self : Loader) (name : String) :
    searchOwnPaths env self name = (self, .ok none) ∨
      ∃ P, env.existsSync P = true ∧
        (searchOwnPaths env self name).1 =
          { self with pathsToNames := setName self.pathsToNames P name } ∧
        ((∃ src, (searchOwnPaths env self name).2 = .ok (some { src := src, path := P })) ∨
          ∃ e, (searchOwnPaths env self name).2 = .error e) := by
  unfold searchOwnPaths
  cases hf : self.searchPaths.find?
      (fun searchPath => env.existsSync (env.join searchPath name)) with
  | none => exact Or.inl rfl
  | some sp =>
    have hex : env.existsSync (env.join sp name) = true := by
      have := List.find?_some hf
      simpa using this
    by_cases h0 : env.join sp name = ""
    · left
      simp only [h0, if_true]
    · right
      refine ⟨env.join sp name, hex, ?_, ?_⟩
      · simp only [h0, if_false]
      · simp only [h0, if_false]
        cases env.readFileSync (env.join sp name) with
        | error e => exact Or.inr ⟨e, rfl⟩
        | ok src => exact Or.inl ⟨src, rfl⟩

/-- The same for the search of the view folders of a module. -/
theorem searchViewFolders_effect (env : Env) (self : Loader) (m r name : String)
    (dirs : List String) :
    searchViewFolders env self m r name dirs = (self, .ok none) ∨
      ∃ P, env.existsSync P = true ∧
        (searchViewFolders env self m r name dirs).1 =
          { self with pathsToNames := setName self.pathsToNames P name } ∧
        ((∃ src, (searchViewFolders env self m r name dirs).2 =
            .ok (some { src := src, path := P })) ∨
          ∃ e, (searchViewFolders env self m r name dirs).2 = .error e) := by
  induction dirs with
  | nil => exact Or.inl rfl
  | cons a t ih =>
    by_cases ha : env.existsSync (a ++ "/" ++ r) = true
    · right
      refine ⟨a ++ "/" ++ r, ha, ?_, ?_⟩
      · simp only [searchViewFolders, ha, if_true]
      · simp only [searchViewFolders, ha, if_true]
        cases env.readFileSync (a ++ "/" ++ r) with
        | error e => exact Or.inr ⟨e, rfl⟩
        | ok src =>
          cases hres : resolveTemplatePathsViaModule env src m with
          | error e => exact Or.inr ⟨e, by simp only [hres]⟩
          | ok out => exact Or.inl ⟨out, by simp only [hres]⟩
    · simp only [searchViewFolders, ha, if_false]
      exact ih

/-- What a call of `getSource` does to the loader: the path it selects is
mapped to the value the variable `name` has after the loop, which is
`modulePath`. -/
theorem getSource_effect (env : Env) (self : Loader) (name : String) :
    getSource env self name = (self, .ok none) ∨
      ∃ P, env.existsSync P = true ∧
        (getSource env self name).1 =
          { self with pathsToNames := setName self.pathsToNames P (parse name).modulePath } ∧
        ((∃ src, (getSource env self name).2 = .ok (some { src := src, path := P })) ∨
          ∃ e, (getSource env self name).2 = .error e) := by
  cases hmn : (parse name).moduleName with
  | none =>
    rw [getSource_of_none env self hmn, parse_of_none (nameMatch_none_of_parse hmn)]
    exact searchOwnPaths_effect env self name
  | some m =>
    have hp : parse name = ⟨some m, (parse name).modulePath⟩ := by
      rw [← hmn]
    rw [getSource_of_module env self hp]
    exact searchViewFolders_effect env self m _ _ _

theorem getSources_single (self : Loader) (c : Call) :
    getSources self [c] =
      ((getSource c.env self c.name).1, [(c, (getSource c.env self c.name).2)]) := rfl

theorem setName_of_ne (m : String → Option String) (path name k : String) (h : k ≠ path) :
    setName m path name k = m k := by
  unfold setName
  by_cases hp : path = "__proto__"
  · simp only [hp, if_true]
  · simp only [hp, if_false, h]

theorem setName_self (m : String → Option String) (path name : String)
    (h : path ≠ "__proto__") : setName m path name path = some name := by
  unfold setName
  simp only [h, if_false, if_true]

theorem setName_proto (m : String → Option String) (name : String) :
    setName m "__proto__" name = m := by
  unfold setName
  simp only [if_true]

theorem setName_keeps (m : String → Option String) (path name k v : String)
    (h : m k = some v) : ∃ v2, setName m path name k = some v2 := by
  by_cases hk : k = path
  · by_cases hp : path = "__proto__"
    · subst hp
      rw [setName_proto]
      exact ⟨v, h⟩
    · subst hk
      exact ⟨name, setName_self m k name hp⟩
  · exact ⟨v, by rw [setName_of_ne m path name k hk]; exact h⟩

theorem not_inherited_of_isAbsolute {k : String} (h : isAbsolute k = true) :
    k ∉ inheritedNames := by
  intro hmem
  have hall : ∀ n ∈ inheritedNames, isAbsolute n = false := by decide
  rw [hall k hmem] at h
  cases h

theorem readMapping_own (m : String → Option String) (k n : String) (h : m k = some n) :
    readMapping m k = .string n := by
  unfold readMapping
  simp only [h]

theorem readMapping_none (m : String → Option String) (k : String) (h : m k = none)
    (hk : k ∉ inheritedNames) : readMapping m k = .undefined := by
  unfold readMapping
  simp only [h, hk, if_false]

theorem readMapping_inherited (m : String → Option String) (k : String) (h : m k = none)
    (hk : k ∈ inheritedNames) : readMapping m k = .inherited k := by
  unfold readMapping
  simp only [h, hk, if_true]

theorem watchCallback_fst (env : Env) (self : Loader) (p event : String)
    (filename : Option String) : (watchCallback env self p event filename).1 = self := by
  unfold watchCallback
  cases filename with
  | none => rfl
  | some f =>
    by_cases hf : f = ""
    · simp only [hf, if_true]
    · simp only [hf, if_false]
      split <;> rfl

/-- A notification the callback acts on emits one `update` with what the read
of the mapping gives. -/
theorem watchCallback_of_in (env : Env) (self : Loader) (p f : String)
    (hf : f ≠ "") (h : inMapping self.pathsToNames (env.join p f) = true) :
    (watchCallback env self p "change" (some f)).2 =
      [{ name := "update", args := [readMapping self.pathsToNames (env.join p f)] }] := by
  unfold watchCallback
  simp only [hf, if_false, h, and_self, if_true]

/-- Nothing is emitted for a path that is neither assigned nor inherited. -/
theorem watchCallback_of_none (env : Env) (self : Loader) (p event f : String)
    (h : self.pathsToNames (env.join p f) = none) (hk : env.join p f ∉ inheritedNames) :
    (watchCallback env self p event (some f)).2 = [] := by
  have hin : inMapping self.pathsToNames (env.join p f) = false := by
    unfold inMapping
    simp [h, hk]
  unfold watchCallback
  by_cases hf : f = ""
  · simp only [hf, if_true]
  · simp [hf, hin]

/-- Every key of the mapping after a sequence of calls was a key before it or
is accounted for by one of the calls. -/
theorem getSources_keys (self : Loader) (calls : List Call) (k n : String)
    (h : (getSources self calls).1.pathsToNames k = some n) :
    (∃ n0, self.pathsToNames k = some n0) ∨ ∃ o ∈ (getSources self calls).2, Selected o k := by
  induction calls generalizing self n with
  | nil => exact Or.inl ⟨n, h⟩
  | cons c cs ih =>
    simp only [getSources] at h ⊢
    rcases ih (getSource c.env self c.name).1 n h with ⟨n0, hn0⟩ | ⟨o, ho, hsel⟩
    · rcases getSource_effect c.env self c.name with hnone | ⟨P, hex, hst, hres⟩
      · rw [hnone] at hn0
        exact Or.inl ⟨n0, hn0⟩
      · rw [hst] at hn0
        by_cases hk : k = P
        · right
          refine ⟨(c, (getSource c.env self c.name).2), List.mem_cons_self _ _, ?_⟩
          subst hk
          rcases hres with ⟨src, hsrc⟩ | ⟨e, he⟩
          · exact Or.inl ⟨src, hsrc⟩
          · exact Or.inr ⟨e, he, hex⟩
        · dsimp only at hn0
          rw [setName_of_ne _ _ _ _ hk] at hn0
          exact Or.inl ⟨n0, hn0⟩
    · exact Or.inr ⟨o, List.mem_cons_of_mem _ ho, hsel⟩

/-! ## The module-reference parser -/

/-- C1. Only the last module prefix matters: putting a prefix `m` of two or
more word characters or hyphens and a colon in front of a name `n` that itself
parses with a module name does not change the result of the parse. -/
theorem parse_last_prefix_wins (m n : String) (hm : 2 ≤ m.length)
    (hw : ∀ c ∈ m.data, isWordOrHyphen c = true) (hn : (parse n).moduleName ≠ none) :
    parse (m ++ ":" ++ n) = parse n := by
  obtain ⟨m2, rest, hmatch⟩ := nameMatch_of_parse_module hn
  obtain ⟨h1, _, _, h4, h5⟩ := nameMatch_data hmatch
  have hne : n ≠ "" := by
    intro h0
    rw [h0] at h1
    simp at h1
  have hl : ∀ c ∈ n.data, isLineTerminator c = false := by
    intro c hc
    rw [h1] at hc
    rcases List.mem_append.mp hc with hc | hc
    · exact isLineTerminator_of_isWordOrHyphen (h4 c hc)
    · rcases List.mem_cons.mp hc with hc | hc
      · subst hc
        decide
      · exact h5 c hc
  unfold parse
  rw [parseLoop_of_some none (nameMatch_append m n hm hw hne hl),
    parseLoop_of_some (some m) hmatch, parseLoop_of_some none hmatch]

/-- C1, at the module prefix `moduleA` and the name `moduleB:foo.html` of the
example: the parse yields `moduleB` and `foo.html`. -/
theorem parse_last_prefix_wins_witness :
    2 ≤ "moduleA".length ∧ (∀ c ∈ "moduleA".data, isWordOrHyphen c = true) ∧
      (parse "moduleB:foo.html").moduleName ≠ none ∧
      parse ("moduleA" ++ ":" ++ "moduleB:foo.html") = parse "moduleB:foo.html" ∧
      parse "moduleB:foo.html" = ⟨some "moduleB", "foo.html"⟩ := by
  have hB : parse "moduleB:foo.html" = ⟨some "moduleB", "foo.html"⟩ := by
    unfold parse
    rw [parseLoop_of_some none
        (show nameMatch "moduleB:foo.html" = some ("moduleB", "foo.html") by decide),
      parseLoop_of_none (some "moduleB") (show nameMatch "foo.html" = none by decide)]
  have hn : (parse "moduleB:foo.html").moduleName ≠ none := by
    rw [hB]
    decide
  exact ⟨by decide, by decide, hn,
    parse_last_prefix_wins "moduleA" "moduleB:foo.html" (by decide) (by decide) hn, hB⟩

/-- C2, as stated, fails: a one-character prefix is not recognised, so neither
of the two results of the claim is what the parser yields. -/
theorem parse_one_character_prefix_counterexample :
    parse "a:b/c.html" ≠ ⟨some "a", "b/c.html"⟩ ∧
      parse "a:b:c.html" ≠ ⟨some "b", "c.html"⟩ := by
  rw [parse_of_none (show nameMatch "a:b/c.html" = none by decide),
    parse_of_none (show nameMatch "a:b:c.html" = none by decide)]
  constructor <;> decide

/-- C2, amended. A module prefix needs two or more characters: the names
`a:b/c.html` and `a:b:c.html` parse with no module name and are their own
path, while `aa:b/c.html` yields `aa` and `b/c.html`, and `aa:bb:c.html` yields
`bb` and `c.html`. -/
theorem parse_two_character_prefix :
    parse "a:b/c.html" = ⟨none, "a:b/c.html"⟩ ∧
      parse "a:b:c.html" = ⟨none, "a:b:c.html"⟩ ∧
      parse "aa:b/c.html" = ⟨some "aa", "b/c.html"⟩ ∧
      parse "aa:bb:c.html" = ⟨some "bb", "c.html"⟩ := by
  refine ⟨parse_of_none (by decide), parse_of_none (by decide), ?_, ?_⟩
  · unfold parse
    rw [parseLoop_of_some none (show nameMatch "aa:b/c.html" = some ("aa", "b/c.html") by decide),
      parseLoop_of_none (some "aa") (show nameMatch "b/c.html" = none by decide)]
  · unfold parse
    rw [parseLoop_of_some none
        (show nameMatch "aa:bb:c.html" = some ("aa", "bb:c.html") by decide),
      parseLoop_of_some (some "aa") (show nameMatch "bb:c.html" = some ("bb", "c.html") by decide),
      parseLoop_of_none (some "bb") (show nameMatch "c.html" = none by decide)]

/-- C3. A name that does not have the shape "two or more word characters or
hyphens, a colon, at least one further character" parses with no module name
and is its own path, and `getSource` searches the loader's own directories for
it. -/
theorem parse_without_module_shape (env : Env) (self : Loader) (name : String)
    (h : ¬ HasModuleShape name) :
    parse name = ⟨none, name⟩ ∧ getSource env self name = searchOwnPaths env self name := by
  have hp := parse_of_none (nameMatch_none_of_not_shape h)
  refine ⟨hp, ?_⟩
  unfold getSource
  simp only [hp]

/-- C3, at the name `plain/path.html` of the example. -/
theorem parse_without_module_shape_witness :
    ¬ HasModuleShape "plain/path.html" ∧
      parse "plain/path.html" = ⟨none, "plain/path.html"⟩ ∧
      getSource exampleEnv (init exampleEnv (.array ["/d1", "/d2"]) false).1 "plain/path.html" =
        searchOwnPaths exampleEnv (init exampleEnv (.array ["/d1", "/d2"]) false).1
          "plain/path.html" := by
  have hshape : ¬ HasModuleShape "plain/path.html" := by
    rintro ⟨w, rest, h, -⟩
    have hc : ':' ∈ "plain/path.html".data := by
      rw [h]
      simp [String.data_append]
    revert hc
    decide
  exact ⟨hshape, parse_without_module_shape exampleEnv _ "plain/path.html" hshape⟩

/-! ## `getSource` -/

/-- C5. For a name without a module prefix, when `d` is the first directory of
the search-path list under which the name exists, `getSource` returns the path
`join(d, name)` with the content of that file as it was read (the error of the
read when it throws), and any loader whose list agrees up to `d` returns the
same, whatever directories follow. -/
theorem getSource_flat_first_match (env : Env) (self : Loader) (name : String)
    (pre : List String) (d : String) (post : List String)
    (hname : (parse name).moduleName = none)
    (hsp : self.searchPaths = pre ++ d :: post)
    (hpre : ∀ x ∈ pre, env.existsSync (env.join x name) = false)
    (hd : env.existsSync (env.join d name) = true) :
    (∀ content, env.readFileSync (env.join d name) = .ok content →
        (getSource env self name).2 = .ok (some { src := content, path := env.join d name })) ∧
      (∀ e, env.readFileSync (env.join d name) = .error e →
        (getSource env self name).2 = .error e) ∧
      (∀ (other : Loader) (post2 : List String), other.searchPaths = pre ++ d :: post2 →
        (getSource env other name).2 = (getSource env self name).2) := by
  have h1 := searchOwnPaths_first env self name pre d post hsp hpre hd
  rw [getSource_of_none env self hname, h1]
  refine ⟨?_, ?_, ?_⟩
  · intro content hc
    simp only [hc]
  · intro e he
    simp only [he]
  · intro other post2 ho
    rw [getSource_of_none env other hname,
      searchOwnPaths_first env other name pre d post2 ho hpre hd]

/-- C5, on the example: `x.html` lies in `/d1` and in `/d2` with different
contents, and the content in `/d1` is returned. -/
theorem getSource_flat_first_match_witness :
    (parse "x.html").moduleName = none ∧
      (init exampleEnv (.array ["/d1", "/d2"]) false).1.searchPaths = [] ++ "/d1" :: ["/d2"] ∧
      exampleEnv.existsSync (exampleEnv.join "/d1" "x.html") = true ∧
      exampleEnv.existsSync (exampleEnv.join "/d2" "x.html") = true ∧
      exampleEnv.readFileSync (exampleEnv.join "/d1" "x.html") = .ok "one" ∧
      exampleEnv.readFileSync (exampleEnv.join "/d2" "x.html") = .ok "two" ∧
      (getSource exampleEnv (init exampleEnv (.array ["/d1", "/d2"]) false).1 "x.html").2 =
        .ok (some { src := "one", path := "/d1/x.html" }) := by
  have hname : (parse "x.html").moduleName = none := by
    rw [parse_of_none (show nameMatch "x.html" = none by decide)]
  have h := getSource_flat_first_match exampleEnv
    (init exampleEnv (.array ["/d1", "/d2"]) false).1 "x.html" [] "/d1" ["/d2"] hname rfl
    (by simp) (by decide)
  exact ⟨hname, rfl, by decide, by decide, by rfl, by rfl, h.1 "one" (by rfl)⟩

/-- C6. For a name that parses to the module name `m` and the path `r`, when
`d` is the first view folder of `m` under which `d + "/" + r` exists,
`getSource` returns that path with the content of the file passed through
`resolveTemplatePathsViaModule` with `m` (or the error of the read or of the
lexer); when no view folder holds `r` it returns null; and the value returned
is the same for every loader and every environment with the same file system,
lexer and view folders of `m`, so the loader's own search paths are never
consulted. -/
theorem getSource_namespaced (env : Env) (self : Loader) (name m r : String)
    (h : parse name = ⟨some m, r⟩) :
    (∀ (pre : List String) (d : String) (post : List String),
        env.getViewFolders m = pre ++ d :: post →
        (∀ x ∈ pre, env.existsSync (x ++ "/" ++ r) = false) →
        env.existsSync (d ++ "/" ++ r) = true →
        (getSource env self name).2 =
          match env.readFileSync (d ++ "/" ++ r) with
          | .error e => .error e
          | .ok content =>
            match resolveTemplatePathsViaModule env content m with
            | .error e => .error e
            | .ok src => .ok (some { src := src, path := d ++ "/" ++ r })) ∧
      ((∀ x ∈ env.getViewFolders m, env.existsSync (x ++ "/" ++ r) = false) →
        (getSource env self name).2 = .ok none) ∧
      (∀ (env2 : Env) (other : Loader), env2.existsSync = env.existsSync →
        env2.readFileSync = env.readFileSync → env2.lex = env.lex →
        env2.getViewFolders m = env.getViewFolders m →
        (getSource env2 other name).2 = (getSource env self name).2) := by
  rw [getSource_of_module env self h]
  refine ⟨?_, ?_, ?_⟩
  · intro pre d post hdirs hpre hd
    rw [hdirs, searchViewFolders_first env self m r r pre d post hpre hd]
  · intro habs
    rw [searchViewFolders_absent env self m r r _ habs]
  · intro env2 other hex hrd hlex hvf
    rw [getSource_of_module env2 other h, hvf]
    exact searchViewFolders_result_congr env env2 self other m r r r _ hex hrd hlex

/-- C6, on the example: `blog:foo.html` is found in the second view folder of
`blog` and comes back rewritten for `blog`, although the loader's own search
paths hold no `foo.html`; `blog:missing.html` is in no view folder. -/
theorem getSource_namespaced_witness :
    parse "blog:foo.html" = ⟨some "blog", "foo.html"⟩ ∧
      exampleEnv.getViewFolders "blog" = ["/project/blog/views"] ++ "/blog/views" :: [] ∧
      exampleEnv.readFileSync "/blog/views/foo.html" = .ok "\x7b% include \"bar.html\" %\x7d" ∧
      (getSource exampleEnv (init exampleEnv (.array ["/d1", "/d2"]) false).1
          "blog:foo.html").2 =
        .ok (some { src := "\x7b% include \"blog:\" + \"bar.html\" %\x7d",
                    path := "/blog/views/foo.html" }) := by
  have hparse : parse "blog:foo.html" = ⟨some "blog", "foo.html"⟩ := by
    unfold parse
    rw [parseLoop_of_some none
        (show nameMatch "blog:foo.html" = some ("blog", "foo.html") by decide),
      parseLoop_of_none (some "blog") (show nameMatch "foo.html" = none by decide)]
  have h := getSource_namespaced exampleEnv (init exampleEnv (.array ["/d1", "/d2"]) false).1
    "blog:foo.html" "blog" "foo.html" hparse
  exact ⟨hparse, rfl, rfl,
    (h.1 ["/project/blog/views"] "/blog/views" [] rfl (by decide) (by decide)).trans (by rfl)⟩

/-- C7. `getSource` returns null, throws nothing and leaves the loader as it
was when the file is in none of the directories it searches: for a name
without a module prefix when no directory of the search-path list (which may
be empty) holds the name, and for a name with the module name `m` when no view
folder of `m` holds the path. -/
theorem getSource_absent (env : Env) (self : Loader) (name : String) :
    ((parse name).moduleName = none →
        (∀ d ∈ self.searchPaths, env.existsSync (env.join d name) = false) →
        getSource env self name = (self, .ok none)) ∧
      (∀ m, (parse name).moduleName = some m →
        (∀ d ∈ env.getViewFolders m,
          env.existsSync (d ++ "/" ++ (parse name).modulePath) = false) →
        getSource env self name = (self, .ok none)) := by
  constructor
  · intro hmn habs
    rw [getSource_of_none env self hmn]
    exact searchOwnPaths_absent env self name habs
  · intro m hmn habs
    have hp : parse name = ⟨some m, (parse name).modulePath⟩ := by
      rw [← hmn]
    rw [getSource_of_module env self hp]
    exact searchViewFolders_absent env self m _ _ _ habs

/-- C7, on the example: `missingfile.html` with the search paths `/d1`, `/d2`
and with no search path at all, and `blog:missing.html`. -/
theorem getSource_absent_witness :
    (parse "missingfile.html").moduleName = none ∧
      (parse "blog:missing.html").moduleName = some "blog" ∧
      (getSource exampleEnv (init exampleEnv (.array ["/d1", "/d2"]) false).1
        "missingfile.html").2 = .ok none ∧
      (getSource exampleEnv (init exampleEnv .missing false).1 "missingfile.html").2 =
        .ok none ∧
      (getSource exampleEnv (init exampleEnv (.array ["/d1", "/d2"]) false).1
        "blog:missing.html").2 = .ok none := by
  have hflat : (parse "missingfile.html").moduleName = none := by
    rw [parse_of_none (show nameMatch "missingfile.html" = none by decide)]
  have hparse : parse "blog:missing.html" = ⟨some "blog", "missing.html"⟩ := by
    unfold parse
    rw [parseLoop_of_some none
        (show nameMatch "blog:missing.html" = some ("blog", "missing.html") by decide),
      parseLoop_of_none (some "blog") (show nameMatch "missing.html" = none by decide)]
  refine ⟨hflat, by rw [hparse], ?_, ?_, ?_⟩
  · rw [(getSource_absent exampleEnv _ "missingfile.html").1 hflat (by decide)]
  · rw [(getSource_absent exampleEnv _ "missingfile.html").1 hflat (by decide)]
  · rw [(getSource_absent exampleEnv _ "blog:missing.html").2 "blog" (by rw [hparse])
      (by rw [hparse]; decide)]

/-! ## The path mapping and the watcher -/

/-- C8, where the code departs from it: the loader of the module `blog`, whose
search paths are the view folders of `blog`, is asked for `blog:foo.html`.  The
call returns the path `/blog/views/foo.html`, but the mapping then holds the
module path `foo.html` for it, not the name `blog:foo.html` that was passed in,
and a change of `foo.html` in the watched directory `/blog/views` makes the
watcher emit `update` with `foo.html`. -/
theorem getSource_records_module_path :
    (init exampleEnv (.array ["/project/blog/views", "/blog/views"]) false).2 =
        ["/blog/views"] ∧
      (getSource exampleEnv (init exampleEnv (.array ["/project/blog/views", "/blog/views"])
          false).1 "blog:foo.html").2 =
        .ok (some { src := "\x7b% include \"blog:\" + \"bar.html\" %\x7d",
                    path := "/blog/views/foo.html" }) ∧
      (getSource exampleEnv (init exampleEnv (.array ["/project/blog/views", "/blog/views"])
          false).1 "blog:foo.html").1.pathsToNames "/blog/views/foo.html" = some "foo.html" ∧
      (getSource exampleEnv (init exampleEnv (.array ["/project/blog/views", "/blog/views"])
          false).1 "blog:foo.html").1.pathsToNames "/blog/views/foo.html" ≠
        some "blog:foo.html" ∧
      (watchCallback exampleEnv
          (getSource exampleEnv (init exampleEnv (.array ["/project/blog/views", "/blog/views"])
            false).1 "blog:foo.html").1
          "/blog/views" "change" (some "foo.html")).2 =
        [{ name := "update", args := ["foo.html"] }] := by
  have hparse : parse "blog:foo.html" = ⟨some "blog", "foo.html"⟩ := by
    unfold parse
    rw [parseLoop_of_some none
        (show nameMatch "blog:foo.html" = some ("blog", "foo.html") by decide),
      parseLoop_of_none (some "blog") (show nameMatch "foo.html" = none by decide)]
  rw [getSource_of_module exampleEnv _ hparse]
  exact ⟨by decide, by rfl, by decide, by decide, by decide⟩

/-- C9, as stated, fails: the fresh loader with the search path `/views` is
asked for `partials`, which exists but is a directory, so the read throws.  The
mapping has the key `/views/partials` although no call returned that path, and
a change notification for it emits `update`. -/
theorem pathsToNames_key_counterexample :
    (getSources (init exampleEnv (.array ["/views"]) false).1
        [{ env := exampleEnv, name := "partials" }]).1.pathsToNames "/views/partials" =
        some "partials" ∧
      (∀ o ∈ (getSources (init exampleEnv (.array ["/views"]) false).1
          [{ env := exampleEnv, name := "partials" }]).2,
        ∀ src, o.2 ≠ .ok (some { src := src, path := "/views/partials" })) ∧
      (watchCallback exampleEnv
          (getSources (init exampleEnv (.array ["/views"]) false).1
            [{ env := exampleEnv, name := "partials" }]).1
          "/views" "change" (some "partials")).2 =
        [{ name := "update", args := ["partials"] }] := by
  have hname : (parse "partials").moduleName = none := by
    rw [parse_of_none (show nameMatch "partials" = none by decide)]
  rw [getSources_single]
  simp only [getSource_of_none exampleEnv _ hname]
  refine ⟨by decide, ?_, by decide⟩
  intro o ho src hsrc
  rw [List.mem_singleton] at ho
  subst ho
  have herr : (searchOwnPaths exampleEnv (init exampleEnv (.array ["/views"]) false).1
      "partials").2 = .error "EISDIR" := by rfl
  simp only [herr] at hsrc
  cases hsrc

/-- C9, amended. In every state reached from a freshly constructed loader by
a sequence of `getSource` calls, every key that was assigned in the path
mapping, and with it every absolute path that is `in` the mapping, is a path
that an earlier call returned, or a path that existed when an earlier call
threw; consequently a change notification for an absolute path that no call
accounts for in this way produces no emission. -/
theorem pathsToNames_keys_selected (env0 : Env) (searchPaths : SearchPathsArg) (noWatch : Bool)
    (calls : List Call) :
    (∀ k n, (getSources (init env0 searchPaths noWatch).1 calls).1.pathsToNames k = some n →
        ∃ o ∈ (getSources (init env0 searchPaths noWatch).1 calls).2, Selected o k) ∧
      (∀ k, isAbsolute k = true →
        inMapping (getSources (init env0 searchPaths noWatch).1 calls).1.pathsToNames k = true →
        ∃ o ∈ (getSources (init env0 searchPaths noWatch).1 calls).2, Selected o k) ∧
      (∀ (env : Env) (p event f : String), isAbsolute (env.join p f) = true →
        (∀ o ∈ (getSources (init env0 searchPaths noWatch).1 calls).2,
          ¬ Selected o (env.join p f)) →
        (watchCallback env (getSources (init env0 searchPaths noWatch).1 calls).1 p event
          (some f)).2 = []) := by
  have hkeys : ∀ k n,
      (getSources (init env0 searchPaths noWatch).1 calls).1.pathsToNames k = some n →
      ∃ o ∈ (getSources (init env0 searchPaths noWatch).1 calls).2, Selected o k := by
    intro k n h
    rcases getSources_keys _ calls k n h with ⟨n0, hn0⟩ | hsel
    · simp [init] at hn0
    · exact hsel
  refine ⟨hkeys, ?_, ?_⟩
  · intro k habs hin
    have hk := not_inherited_of_isAbsolute habs
    cases hkey : (getSources (init env0 searchPaths noWatch).1 calls).1.pathsToNames k with
    | none =>
      unfold inMapping at hin
      simp [hkey, hk] at hin
    | some n => exact hkeys k n hkey
  · intro env p event f habs hno
    have hk := not_inherited_of_isAbsolute habs
    cases hkey : (getSources (init env0 searchPaths noWatch).1 calls).1.pathsToNames
        (env.join p f) with
    | none => exact watchCallback_of_none env _ p event f hkey hk
    | some n =>
      obtain ⟨o, ho, hsel⟩ := hkeys _ n hkey
      exact absurd hsel (hno o ho)

/-- C9, on the example: after `x.html` was resolved, the key `/d1/x.html` is
accounted for by that call, and a change of `y.html` in `/d1`, an absolute
path that no call accounts for, emits nothing. -/
theorem pathsToNames_keys_selected_witness :
    (getSources (init exampleEnv (.array ["/d1", "/d2"]) false).1
        [{ env := exampleEnv, name := "x.html" }]).1.pathsToNames "/d1/x.html" =
        some "x.html" ∧
      (∃ o ∈ (getSources (init exampleEnv (.array ["/d1", "/d2"]) false).1
          [{ env := exampleEnv, name := "x.html" }]).2, Selected o "/d1/x.html") ∧
      isAbsolute (exampleEnv.join "/d1" "y.html") = true ∧
      (watchCallback exampleEnv
          (getSources (init exampleEnv (.array ["/d1", "/d2"]) false).1
            [{ env := exampleEnv, name := "x.html" }]).1 "/d1" "change"
          (some "y.html")).2 = [] := by
  have hname : (parse "x.html").moduleName = none := by
    rw [parse_of_none (show nameMatch "x.html" = none by decide)]
  have hkey : (getSources (init exampleEnv (.array ["/d1", "/d2"]) false).1
      [{ env := exampleEnv, name := "x.html" }]).1.pathsToNames "/d1/x.html" =
      some "x.html" := by
    rw [getSources_single]
    simp only [getSource_of_none exampleEnv _ hname]
    decide
  have hres : (getSource exampleEnv (init exampleEnv (.array ["/d1", "/d2"]) false).1
      "x.html").2 = .ok (some { src := "one", path := "/d1/x.html" }) := by
    rw [getSource_of_none exampleEnv _ hname]
    rfl
  have hno : ∀ o ∈ (getSources (init exampleEnv (.array ["/d1", "/d2"]) false).1
      [{ env := exampleEnv, name := "x.html" }]).2,
      ¬ Selected o (exampleEnv.join "/d1" "y.html") := by
    intro o ho hsel
    rw [getSources_single, List.mem_singleton] at ho
    subst ho
    rcases hsel with ⟨src, h⟩ | ⟨e, h, -⟩
    · simp only [hres, Except.ok.injEq, Option.some.injEq, Source.mk.injEq] at h
      exact absurd h.2 (by decide)
    · simp only [hres] at h
      cases h
  exact ⟨hkey,
    (pathsToNames_keys_selected exampleEnv (.array ["/d1", "/d2"]) false
      [{ env := exampleEnv, name := "x.html" }]).1 "/d1/x.html" "x.html" hkey,
    by decide,
    (pathsToNames_keys_selected exampleEnv (.array ["/d1", "/d2"]) false
      [{ env := exampleEnv, name := "x.html" }]).2.2 exampleEnv "/d1" "change" "y.html"
      (by decide) hno⟩

/-- What the watch callback does for a path that is not the name of an
inherited member: it never changes the loader; it emits exactly one `update`
carrying `pathsToNames[join(p, filename)]` when there is a filename, the event
is `change` and the joined path was assigned in the mapping; and it emits
nothing when there is no filename (null or the empty string), when the event
is not `change`, or when the joined path was not assigned and is not the name
of an inherited member. -/
theorem watchCallback_emits (env : Env) (self : Loader) (p event : String)
    (filename : Option String) :
    (watchCallback env self p event filename).1 = self ∧
      (∀ f n, filename = some f → f ≠ "" → event = "change" →
        self.pathsToNames (env.join p f) = some n →
        (watchCallback env self p event filename).2 = [{ name := "update", args := [n] }]) ∧
      (filename = none ∨ filename = some "" ∨ event ≠ "change" ∨
          (∀ f, filename = some f →
            self.pathsToNames (env.join p f) = none ∧ env.join p f ∉ inheritedNames) →
        (watchCallback env self p event filename).2 = []) := by
  refine ⟨watchCallback_fst env self p event filename, ?_, ?_⟩
  · intro f n hfile hf he hkey
    subst hfile he
    have hin : inMapping self.pathsToNames (env.join p f) = true := by
      unfold inMapping
      simp [hkey]
    rw [watchCallback_of_in env self p f hf hin, readMapping_own _ _ n hkey]
  · intro h
    cases filename with
    | none => rfl
    | some f =>
      rcases h with h | h | h | h
      · cases h
      · cases h
        unfold watchCallback
        simp only [if_true]
      · unfold watchCallback
        by_cases hf : f = ""
        · simp only [hf, if_true]
        · simp only [hf, if_false, h, false_and]
      · exact watchCallback_of_none env self p event f (h f rfl).1 (h f rfl).2

/-- The callback on the example: after `x.html` was resolved in `/d1`, a change
of `x.html` in `/d1` emits one `update` with `x.html`; a rename of it, a change
of a file never resolved and a notification without a filename emit nothing. -/
theorem watchCallback_emits_witness :
    (getSource exampleEnv (init exampleEnv (.array ["/d1", "/d2"]) false).1
        "x.html").1.pathsToNames (exampleEnv.join "/d1" "x.html") = some "x.html" ∧
      (watchCallback exampleEnv
          (getSource exampleEnv (init exampleEnv (.array ["/d1", "/d2"]) false).1 "x.html").1
          "/d1" "change" (some "x.html")).2 = [{ name := "update", args := ["x.html"] }] ∧
      (watchCallback exampleEnv
          (getSource exampleEnv (init exampleEnv (.array ["/d1", "/d2"]) false).1 "x.html").1
          "/d1" "rename" (some "x.html")).2 = [] ∧
      (watchCallback exampleEnv
          (getSource exampleEnv (init exampleEnv (.array ["/d1", "/d2"]) false).1 "x.html").1
          "/d1" "change" (some "y.html")).2 = [] ∧
      (watchCallback exampleEnv
          (getSource exampleEnv (init exampleEnv (.array ["/d1", "/d2"]) false).1 "x.html").1
          "/d1" "change" none).2 = [] := by
  have hname : (parse "x.html").moduleName = none := by
    rw [parse_of_none (show nameMatch "x.html" = none by decide)]
  have hkey : (getSource exampleEnv (init exampleEnv (.array ["/d1", "/d2"]) false).1
      "x.html").1.pathsToNames (exampleEnv.join "/d1" "x.html") = some "x.html" := by
    rw [getSource_of_none exampleEnv _ hname]
    decide
  have hno : (getSource exampleEnv (init exampleEnv (.array ["/d1", "/d2"]) false).1
      "x.html").1.pathsToNames (exampleEnv.join "/d1" "y.html") = none := by
    rw [getSource_of_none exampleEnv _ hname]
    decide
  refine ⟨hkey, ?_, ?_, ?_, ?_⟩
  · exact (watchCallback_emits exampleEnv _ "/d1" "change" (some "x.html")).2.1
      "x.html" "x.html" rfl (by decide) rfl hkey
  · exact (watchCallback_emits exampleEnv _ "/d1" "rename" (some "x.html")).2.2
      (Or.inr (Or.inr (Or.inl (by decide))))
  · exact (watchCallback_emits exampleEnv _ "/d1" "change" (some "y.html")).2.2
      (Or.inr (Or.inr (Or.inr (fun f hf => by cases hf; exact ⟨hno, by decide⟩))))
  · exact (watchCallback_emits exampleEnv _ "/d1" "change" none).2.2 (Or.inl rfl)

/-- C10, where the code departs from it: the loader is given the search path
`.`, which exists and is watched, and nothing was resolved yet.  A change of
the file `constructor` gives the joined path `constructor`, which was never
assigned in the mapping; the test with `in` still finds the inherited member,
and `update` is emitted with that member. -/
theorem watchCallback_inherited_name :
    (init dotEnv (.single ".") false).2 = ["."] ∧
      dotEnv.join "." "constructor" = "constructor" ∧
      (init dotEnv (.single ".") false).1.pathsToNames "constructor" = none ∧
      (watchCallback dotEnv (init dotEnv (.single ".") false).1 "." "change"
          (some "constructor")).2 =
        [{ name := "update", args := [Value.inherited "constructor"] }] ∧
      (watchCallback dotEnv (init dotEnv (.single ".") false).1 "." "change"
          (some "constructor")).2 ≠ [] := by
  refine ⟨by decide, by decide, rfl, by decide, by decide⟩

/-! ## The token loop -/

theorem rewriteToken_out (m : String) (r : Rewriter) (t : Token) :
    (rewriteToken m r t).out = r.out ++ turnText m t := by
  unfold rewriteToken turnText isPathKeyword injection
  by_cases h1 : t.type = "block-start"
  · have h2 : ¬ (t.type = "symbol" ∧ t.value ∈ pathKeywords) := by
      rintro ⟨h, -⟩
      rw [h1] at h
      revert h
      decide
    simp [h1, h2]
  · by_cases h2 : t.type = "symbol" ∧ t.value ∈ pathKeywords
    · simp only [h1, h2, if_false, if_true, and_self, decide_True]
      apply String.ext
      simp [String.data_append]
    · by_cases h3 : t.type = "block-end"
      · simp [h1, h2, h3]
      · simp [h1, h2, h3]

theorem foldl_rewriteToken_out (m : String) (toks : List Token) (r : Rewriter) :
    (toks.foldl (rewriteToken m) r).out = r.out ++ String.join (toks.map (turnText m)) := by
  induction toks generalizing r with
  | nil =>
    apply String.ext
    simp [String.data_append]
  | cons t ts ih =>
    rw [List.foldl_cons, ih, rewriteToken_out]
    apply String.ext
    simp [String.data_append]

/-- The output of the token loop: the texts of the turns, in order.  The
injected text follows every path keyword, whatever `state` is. -/
theorem rewriteTokens_eq_join (m : String) (toks : List Token) :
    rewriteTokens m toks = String.join (toks.map (turnText m)) := by
  unfold rewriteTokens
  rw [foldl_rewriteToken_out]
  apply String.ext
  simp [String.data_append]

theorem map_turnText_of_no_keyword (m : String) (toks : List Token)
    (hno : ∀ t ∈ toks, ¬ (t.type = "symbol" ∧ t.value ∈ pathKeywords)) :
    toks.map (turnText m) = toks.map tokenText := by
  apply List.map_congr_left
  intro t ht
  have h := hno t ht
  unfold turnText isPathKeyword
  apply String.ext
  simp [h, String.data_append]

/-- C11, as stated, fails: the source `{{ 'a' }}` has no path keyword, but it
comes back with its string between double quotes. -/
theorem resolve_identity_counterexample :
    templateEnv.lex "\x7b\x7b 'a' \x7d\x7d" = .ok quotedTokens ∧
      (∀ t ∈ quotedTokens, ¬ (t.type = "symbol" ∧ t.value ∈ pathKeywords)) ∧
      resolveTemplatePathsViaModule templateEnv "\x7b\x7b 'a' \x7d\x7d" "mod" =
        .ok "\x7b\x7b \"a\" \x7d\x7d" ∧
      "\x7b\x7b \"a\" \x7d\x7d" ≠ "\x7b\x7b 'a' \x7d\x7d" := by
  refine ⟨rfl, by decide, by rfl, by decide⟩

/-- C11, amended. For a source whose token stream holds no symbol token with
the value include, import, extends or from, `resolveTemplatePathsViaModule`
returns for every module name the texts of the tokens in order (a string
between double quotes, a regex between slashes, any other token as its value);
that is the source unchanged whenever the source is this concatenation. -/
theorem resolve_without_keywords (env : Env) (src m : String) (toks : List Token)
    (hlex : env.lex src = .ok toks)
    (hno : ∀ t ∈ toks, ¬ (t.type = "symbol" ∧ t.value ∈ pathKeywords)) :
    resolveTemplatePathsViaModule env src m = .ok (String.join (toks.map tokenText)) ∧
      (String.join (toks.map tokenText) = src →
        resolveTemplatePathsViaModule env src m = .ok src) := by
  have h : resolveTemplatePathsViaModule env src m =
      .ok (String.join (toks.map tokenText)) := by
    unfold resolveTemplatePathsViaModule
    simp only [hlex]
    rw [rewriteTokens_eq_join, map_turnText_of_no_keyword m toks hno]
  refine ⟨h, ?_⟩
  intro hsrc
  rw [h, hsrc]

/-- C11, on the example: the source without directives, a single data token,
comes back unchanged for the module `mod`. -/
theorem resolve_without_keywords_witness :
    templateEnv.lex "plain text, no directives" =
        .ok [⟨"data", "plain text, no directives"⟩] ∧
      (∀ t ∈ [(⟨"data", "plain text, no directives"⟩ : Token)],
        ¬ (t.type = "symbol" ∧ t.value ∈ pathKeywords)) ∧
      resolveTemplatePathsViaModule templateEnv "plain text, no directives" "mod" =
        .ok "plain text, no directives" := by
  have hno : ∀ t ∈ [(⟨"data", "plain text, no directives"⟩ : Token)],
      ¬ (t.type = "symbol" ∧ t.value ∈ pathKeywords) := by decide
  exact ⟨rfl, hno,
    (resolve_without_keywords templateEnv "plain text, no directives" "mod"
      [⟨"data", "plain text, no directives"⟩] rfl hno).2 (by decide)⟩

/-- C12, where the code departs from it: in the variable expression
`{{ email.from }}` the symbol `from` is not inside a block, yet the text
`"mod:" +` is put after it. -/
theorem rewrite_injects_in_variable :
    templateEnv.lex "\x7b\x7b email.from \x7d\x7d" = .ok propertyTokens ∧
      (∀ t ∈ propertyTokens, t.type ≠ "block-start") ∧
      rewriteTokens "mod" propertyTokens = "\x7b\x7b email.from \"mod:\" + \x7d\x7d" ∧
      resolveTemplatePathsViaModule templateEnv "\x7b\x7b email.from \x7d\x7d" "mod" =
        .ok "\x7b\x7b email.from \"mod:\" + \x7d\x7d" := by
  refine ⟨rfl, by decide, by decide, by rfl⟩

/-- C13, where the code departs from it: in `{% if a %}{{ a.import }}{% endif %}`
the symbol `import` comes after a block-end and before the next block-start,
with `state` back at `boring`, yet the text `"mod:" +` is put after it. -/
theorem rewrite_injects_after_block_end :
    betweenBlocksTokens.get? 11 = some ⟨"symbol", "import"⟩ ∧
      ((betweenBlocksTokens.take 11).foldl (rewriteToken "mod")
        { out := "", state := "boring" }).state = "boring" ∧
      (∀ t ∈ (betweenBlocksTokens.take 11).drop 7, t.type ≠ "block-start") ∧
      rewriteTokens "mod" betweenBlocksTokens =
        "\x7b% if a %\x7d\x7b\x7b a.import \"mod:\" + \x7d\x7d\x7b% endif %\x7d" := by
  refine ⟨by decide, by decide, by decide, by decide⟩

/-! ## The frame of `getSource` -/

/-- The frame of a call: no assigned key of the path mapping is removed; a
call that returns a path other than `__proto__` writes the entry of that path
(the value is the one the call assigns, whatever was there before) and leaves
every other entry as it was; a call that returns null leaves the loader
unchanged; and in every case at most one entry differs afterwards. -/
theorem getSource_mapping_frame (env : Env) (self : Loader) (name : String) :
    (∀ k v, self.pathsToNames k = some v →
        ∃ v2, (getSource env self name).1.pathsToNames k = some v2) ∧
      (∀ src P, (getSource env self name).2 = .ok (some { src := src, path := P }) →
        (P ≠ "__proto__" →
          (getSource env self name).1.pathsToNames P = some (parse name).modulePath) ∧
          ∀ k, k ≠ P → (getSource env self name).1.pathsToNames k = self.pathsToNames k) ∧
      ((getSource env self name).2 = .ok none → (getSource env self name).1 = self) ∧
      (∃ P, ∀ k, k ≠ P → (getSource env self name).1.pathsToNames k = self.pathsToNames k) := by
  rcases getSource_effect env self name with hnone | ⟨P, -, hst, hres⟩
  · rw [hnone]
    refine ⟨fun k v h => ⟨v, h⟩, ?_, fun _ => rfl, ⟨"", fun _ _ => rfl⟩⟩
    intro src P h
    cases h
  · have hother : ∀ k, k ≠ P →
        (getSource env self name).1.pathsToNames k = self.pathsToNames k := by
      intro k hk
      rw [hst]
      exact setName_of_ne _ _ _ _ hk
    have hat : P ≠ "__proto__" →
        (getSource env self name).1.pathsToNames P = some (parse name).modulePath := by
      intro hP
      rw [hst]
      exact setName_self _ _ _ hP
    refine ⟨?_, ?_, ?_, ⟨P, hother⟩⟩
    · intro k v hk
      rw [hst]
      exact setName_keeps _ _ _ _ _ hk
    · intro src P2 h2
      have hP : P2 = P := by
        rcases hres with ⟨src1, h1⟩ | ⟨e, h1⟩
        · rw [h1] at h2
          simp only [Except.ok.injEq, Option.some.injEq, Source.mk.injEq] at h2
          exact h2.2.symm
        · rw [h1] at h2
          cases h2
      subst hP
      exact ⟨hat, hother⟩
    · intro h2
      rcases hres with ⟨src1, h1⟩ | ⟨e, h1⟩
      · rw [h1] at h2
        cases h2
      · rw [h1] at h2
        cases h2

/-- The frame on the example: resolving `x.html` writes the one entry
`/d1/x.html`, a later call for `blog:foo.html` keeps that key, and the call
for `missingfile.html` returns null and leaves the loader as it was. -/
theorem getSource_mapping_frame_witness :
    (getSource exampleEnv (init exampleEnv (.array ["/d1", "/d2"]) false).1 "x.html").2 =
        .ok (some { src := "one", path := "/d1/x.html" }) ∧
      (getSource exampleEnv (init exampleEnv (.array ["/d1", "/d2"]) false).1
        "x.html").1.pathsToNames "/d1/x.html" = some "x.html" ∧
      (∀ k, k ≠ "/d1/x.html" →
        (getSource exampleEnv (init exampleEnv (.array ["/d1", "/d2"]) false).1
          "x.html").1.pathsToNames k =
        (init exampleEnv (.array ["/d1", "/d2"]) false).1.pathsToNames k) ∧
      (∃ v2, (getSource exampleEnv
          (getSource exampleEnv (init exampleEnv (.array ["/d1", "/d2"]) false).1 "x.html").1
          "blog:foo.html").1.pathsToNames "/d1/x.html" = some v2) ∧
      (getSource exampleEnv (init exampleEnv (.array ["/d1", "/d2"]) false).1
        "missingfile.html").1 = (init exampleEnv (.array ["/d1", "/d2"]) false).1 := by
  have hname : (parse "x.html").moduleName = none := by
    rw [parse_of_none (show nameMatch "x.html" = none by decide)]
  have hmiss : (parse "missingfile.html").moduleName = none := by
    rw [parse_of_none (show nameMatch "missingfile.html" = none by decide)]
  have hres : (getSource exampleEnv (init exampleEnv (.array ["/d1", "/d2"]) false).1
      "x.html").2 = .ok (some { src := "one", path := "/d1/x.html" }) := by
    rw [getSource_of_none exampleEnv _ hname]
    rfl
  have hnull : (getSource exampleEnv (init exampleEnv (.array ["/d1", "/d2"]) false).1
      "missingfile.html").2 = .ok none := by
    rw [getSource_of_none exampleEnv _ hmiss]
    rfl
  have hx := (getSource_mapping_frame exampleEnv
    (init exampleEnv (.array ["/d1", "/d2"]) false).1 "x.html").2.1 "one" "/d1/x.html" hres
  rw [parse_of_none (show nameMatch "x.html" = none by decide)] at hx
  exact ⟨hres, hx.1 (by decide), hx.2,
    (getSource_mapping_frame exampleEnv _ "blog:foo.html").1 "/d1/x.html" "x.html"
      (hx.1 (by decide)),
    (getSource_mapping_frame exampleEnv _ "missingfile.html").2.2.1 hnull⟩

/-- C16, where the code departs from it: the loader with the search path `.`
is asked for `__proto__`, a file that exists there.  The call succeeds and
returns the path `__proto__`, but the assignment to the mapping under that
name is ignored: no entry is added, and what a read of the mapping gives under
`__proto__` is still the inherited member.  The same call for the file
`constructor` does record its path. -/
theorem getSource_proto_not_recorded :
    (getSource dotEnv (init dotEnv (.single ".") false).1 "__proto__").2 =
        .ok (some { src := "two", path := "__proto__" }) ∧
      (getSource dotEnv (init dotEnv (.single ".") false).1
        "__proto__").1.pathsToNames "__proto__" = none ∧
      readMapping (getSource dotEnv (init dotEnv (.single ".") false).1
        "__proto__").1.pathsToNames "__proto__" = Value.inherited "__proto__" ∧
      (getSource dotEnv (init dotEnv (.single ".") false).1
        "constructor").1.pathsToNames "constructor" = some "constructor" := by
  have hp : (parse "__proto__").moduleName = none := by
    rw [parse_of_none (show nameMatch "__proto__" = none by decide)]
  have hc : (parse "constructor").moduleName = none := by
    rw [parse_of_none (show nameMatch "constructor" = none by decide)]
  rw [getSource_of_none dotEnv _ hp, getSource_of_none dotEnv _ hc]
  exact ⟨by rfl, by decide, by decide, by decide⟩

/-! ## `on` and `emit` -/

theorem inheritedLength_of_not_inherited {name : String} (h : name ∉ inheritedNames) :
    inheritedLength name = 0 := by
  unfold inheritedLength
  cases hl : objectPrototypeMembers.lookup name with
  | none => rfl
  | some v =>
    exfalso
    apply h
    have hmem : (name, v) ∈ objectPrototypeMembers := by
      revert hl
      unfold objectPrototypeMembers
      simp only [List.lookup]
      intro hl
      repeat' split at hl
      all_goals simp_all
    exact List.mem_map.mpr ⟨(name, v), hmem, rfl⟩

theorem emit_eq_callEach {σ : Type} (self : Listeners σ) (name : String) (args : List String)
    (w : σ) (h : name ∉ inheritedNames) :
    emit self name args w = callEach (listenersOf self name) args w := by
  unfold emit listenersOf
  cases self.listeners with
  | none => rfl
  | some l =>
    dsimp only
    cases hl : l name with
    | none =>
      dsimp only
      rw [inheritedLength_of_not_inherited h]
      rfl
    | some a => rfl
theorem noInheritedArray_fresh (σ : Type) : NoInheritedArray (Listeners.fresh σ) := by
  intro l hl
  cases hl

theorem noInheritedArray_onEvent {σ : Type} (self : Listeners σ) (name : String)
    (func : Listener σ) (h : NoInheritedArray self) :
    NoInheritedArray (onEvent self name func).1 := by
  intro l hl n hn
  unfold onEvent at hl
  cases hs : self.listeners with
  | none =>
    rw [hs] at hl
    dsimp only at hl
    by_cases hname : name ∈ inheritedNames
    · rw [if_pos hname] at hl
      cases hl
      rfl
    · rw [if_neg hname] at hl
      cases hl
      have hne : n ≠ name := fun e => hname (e ▸ hn)
      simp only [hne, if_false]
  | some l0 =>
    rw [hs] at hl
    dsimp only at hl
    have h0 := h l0 hs
    cases hl0 : l0 name with
    | none =>
      rw [hl0] at hl
      dsimp only at hl
      by_cases hname : name ∈ inheritedNames
      · rw [if_pos hname] at hl
        cases hl
        exact h0 n hn
      · rw [if_neg hname] at hl
        cases hl
        have hne : n ≠ name := fun e => hname (e ▸ hn)
        simp only [hne, if_false]
        exact h0 n hn
    | some a =>
      rw [hl0] at hl
      dsimp only at hl
      cases hl
      have hne : n ≠ name := by
        intro e
        subst e
        rw [h0 n hn] at hl0
        cases hl0
      simp only [hne, if_false]
      exact h0 n hn

theorem listenersOf_onEvent {σ : Type} (self : Listeners σ) (name : String) (func : Listener σ)
    (k : String) (h : NoInheritedArray self) :
    listenersOf (onEvent self name func).1 k =
      if k = name ∧ name ∉ inheritedNames then listenersOf self k ++ [func]
      else listenersOf self k := by
  unfold onEvent listenersOf
  cases hs : self.listeners with
  | none =>
    dsimp only
    by_cases hname : name ∈ inheritedNames
    · rw [if_pos hname]
      simp [hname]
    · rw [if_neg hname]
      by_cases hk : k = name
      · simp [hk, hname]
      · simp [hk]
  | some l0 =>
    dsimp only
    cases hl0 : l0 name with
    | none =>
      dsimp only
      by_cases hname : name ∈ inheritedNames
      · rw [if_pos hname]
        simp [hname]
      · rw [if_neg hname]
        by_cases hk : k = name
        · subst hk
          simp [hl0, hname]
        · simp [hk]
    | some a =>
      dsimp only
      have hname : name ∉ inheritedNames := by
        intro hn
        rw [h l0 hs name hn] at hl0
        cases hl0
      by_cases hk : k = name
      · subst hk
        simp [hl0, hname]
      · simp [hk]

theorem noInheritedArray_register {σ : Type} (regs : List (String × Listener σ))
    (self : Listeners σ) (h : NoInheritedArray self) : NoInheritedArray (register self regs) := by
  induction regs generalizing self with
  | nil => exact h
  | cons r rs ih =>
    have hstep : register self (r :: rs) = register (onEvent self r.1 r.2).1 rs := rfl
    rw [hstep]
    exact ih _ (noInheritedArray_onEvent self r.1 r.2 h)

theorem listenersOf_register {σ : Type} (regs : List (String × Listener σ))
    (self : Listeners σ) (k : String) (h : NoInheritedArray self) :
    listenersOf (register self regs) k = listenersOf self k ++ registeredUnder k regs := by
  induction regs generalizing self with
  | nil => simp [register, registeredUnder]
  | cons r rs ih =>
    have hstep : register self (r :: rs) = register (onEvent self r.1 r.2).1 rs := rfl
    rw [hstep, ih _ (noInheritedArray_onEvent self r.1 r.2 h), listenersOf_onEvent _ _ _ _ h]
    unfold registeredUnder
    by_cases hin : k ∈ inheritedNames
    · rw [if_pos hin, if_pos hin]
      by_cases hk : k = r.1
      · have hr : r.1 ∈ inheritedNames := hk ▸ hin
        simp [hr]
      · simp [hk]
    · rw [if_neg hin, if_neg hin]
      by_cases hk : k = r.1
      · have hr : r.1 = k := hk.symm
        have hr2 : r.1 ∉ inheritedNames := hk ▸ hin
        simp [hk, hr2]
      · have hr : ¬ r.1 = k := fun h => hk h.symm
        simp [hk, hr]

theorem listenersOf_fresh {σ : Type} (regs : List (String × Listener σ)) (k : String) :
    listenersOf (register (Listeners.fresh σ) regs) k = registeredUnder k regs := by
  rw [listenersOf_register _ _ _ (noInheritedArray_fresh σ)]
  rfl

theorem emit_inherited {σ : Type} (self : Listeners σ) (name : String) (args : List String)
    (w : σ) (h : NoInheritedArray self) (hn : name ∈ inheritedNames) :
    emit self name args w =
      if self.listeners.isSome ∧ 1 ≤ inheritedLength name then (w, some applyTypeError)
      else (w, none) := by
  unfold emit
  cases hs : self.listeners with
  | none => simp
  | some l =>
    dsimp only
    rw [h l hs name hn]
    simp

theorem callEach_loggers (labels : List String) (args : List String)
    (log : List (String × List String)) :
    callEach (labels.map logger) args log = (log ++ labels.map (fun l => (l, args)), none) := by
  induction labels generalizing log with
  | nil => simp [callEach]
  | cons a t ih =>
    simp only [List.map_cons, callEach, logger]
    have h := ih (log ++ [(a, args)])
    simp only [logger] at h
    rw [h]
    simp

theorem callEach_error {σ : Type} (pre : List (Listener σ)) (l : Listener σ)
    (post : List (Listener σ)) (args : List String) (w w1 w2 : σ) (err : Error)
    (hpre : callEach pre args w = (w1, none)) (hl : l args w1 = (w2, some err)) :
    callEach (pre ++ l :: post) args w = (w2, some err) := by
  induction pre generalizing w with
  | nil =>
    simp only [callEach, Prod.mk.injEq, and_true] at hpre
    subst hpre
    simp only [List.nil_append, callEach, hl]
  | cons a t ih =>
    simp only [List.cons_append, callEach]
    simp only [callEach] at hpre
    cases ha : a args w with
    | mk wa ea =>
      cases ea with
      | none =>
        simp only [ha] at hpre ⊢
        exact ih wa hpre
      | some e =>
        simp only [ha] at hpre
        cases hpre

/-- Dispatch under a name that is not the name of an inherited member: after
any sequence of registrations on a new loader, `emit(e, args)` runs the
callbacks registered under `e`, and no others, in the order of their
registration, each called once with `args`; when none is registered under `e`,
or nothing was ever registered, it does nothing.  With callbacks that log
their calls, the log gains one entry per registration under `e`, in order,
each with `args`. -/
theorem emit_dispatch {σ : Type} (regs : List (String × Listener σ)) (e : String)
    (args : List String) (w : σ) (he : e ∉ inheritedNames) :
    emit (register (Listeners.fresh σ) regs) e args w =
        callEach (registeredUnder e regs) args w ∧
      (registeredUnder e regs = [] →
        emit (register (Listeners.fresh σ) regs) e args w = (w, none)) ∧
      emit (Listeners.fresh σ) e args w = (w, none) ∧
      (∀ (labelled : List (String × String)) (log : List (String × List String)),
        emit (register (Listeners.fresh _) (labelled.map (fun r => (r.1, logger r.2)))) e args
            log =
          (log ++ (labelled.filter (fun r => decide (r.1 = e))).map (fun r => (r.2, args)),
            none)) := by
  have h1 : emit (register (Listeners.fresh σ) regs) e args w =
      callEach (registeredUnder e regs) args w := by
    rw [emit_eq_callEach _ _ _ _ he, listenersOf_fresh]
  refine ⟨h1, ?_, rfl, ?_⟩
  · intro hnil
    rw [h1, hnil]
    rfl
  · intro labelled log
    rw [emit_eq_callEach _ _ _ _ he, listenersOf_fresh]
    have hreg : registeredUnder e (labelled.map (fun r => (r.1, logger r.2))) =
        ((labelled.filter (fun r => decide (r.1 = e))).map (fun r => r.2)).map logger := by
      unfold registeredUnder
      rw [if_neg he]
      induction labelled with
      | nil => rfl
      | cons a t ih =>
        by_cases ha : a.1 = e
        · simp [List.filter_cons, ha] at ih ⊢
          exact ih
        · simp [List.filter_cons, ha] at ih ⊢
          exact ih
    rw [hreg, callEach_loggers]
    simp

/-- Dispatch on the example: the subscribers A, B and C are registered in that
order under `update`, with one more under another name between them, and an
emission of `update` calls A, B, C in that order with the argument given. -/
theorem emit_dispatch_witness :
    emit (register (Listeners.fresh _)
        [("update", logger "A"), ("update", logger "B"), ("other", logger "X"),
          ("update", logger "C")]) "update" ["x.html"] [] =
      ([("A", ["x.html"]), ("B", ["x.html"]), ("C", ["x.html"])], none) ∧
    emit (register (Listeners.fresh _) [("other", logger "X")]) "update" ["x.html"] [] =
      ([], none) := by
  constructor
  · exact (emit_dispatch [("update", logger "A"), ("update", logger "B"),
      ("other", logger "X"), ("update", logger "C")] "update" ["x.html"] []
      (by decide)).1.trans (by rfl)
  · exact (emit_dispatch [("other", logger "X")] "update" ["x.html"] []
      (by decide)).2.1 (by rfl)

/-- C14, where the code departs from it, at the event name `constructor`.
With A registered under `update` only, nothing is registered under
`constructor`, yet `emit('constructor', 'x')` does not do nothing: it throws a
TypeError (A is not called).  And `on('constructor', A)` on a new loader
throws a TypeError itself; after it an emission of `constructor` does not call
A, whereas the same two calls with `update` do call A with the argument. -/
theorem emit_inherited_name_throws :
    registeredUnder "constructor" [("update", logger "A")] = [] ∧
      emit (register (Listeners.fresh _) [("update", logger "A")]) "constructor" ["x"] [] =
        ([], some applyTypeError) ∧
      (onEvent (Listeners.fresh _) "constructor" (logger "A")).2 = some pushTypeError ∧
      emit (onEvent (Listeners.fresh _) "constructor" (logger "A")).1 "constructor" ["x"] [] =
        ([], some applyTypeError) ∧
      (onEvent (Listeners.fresh _) "update" (logger "A")).2 = none ∧
      emit (onEvent (Listeners.fresh _) "update" (logger "A")).1 "update" ["x"] [] =
        ([("A", ["x"])], none) := by
  refine ⟨rfl, rfl, rfl, rfl, rfl, rfl⟩

/-- C15. When the callbacks registered under `e` are `pre`, then `l`, then
`post`, the callbacks of `pre` run without an error and `l` throws, the
emission ends with the world as `l` left it after `pre` and with the error of
`l`: every callback of `pre` has run, none of `post` is called. -/
theorem emit_stops_at_error {σ : Type} (regs : List (String × Listener σ)) (e : String)
    (args : List String) (w w1 w2 : σ) (pre : List (Listener σ)) (l : Listener σ)
    (post : List (Listener σ)) (err : Error)
    (hreg : registeredUnder e regs = pre ++ l :: post)
    (hpre : callEach pre args w = (w1, none)) (hl : l args w1 = (w2, some err)) :
    emit (register (Listeners.fresh σ) regs) e args w = (w2, some err) ∧
      emit (register (Listeners.fresh σ) regs) e args w = callEach (pre ++ [l]) args w := by
  have he : e ∉ inheritedNames := by
    intro hin
    unfold registeredUnder at hreg
    rw [if_pos hin] at hreg
    cases pre with
    | nil => cases hreg
    | cons a t => cases hreg
  rw [emit_eq_callEach _ _ _ _ he, listenersOf_fresh, hreg]
  exact ⟨callEach_error pre l post args w w1 w2 err hpre hl,
    (callEach_error pre l post args w w1 w2 err hpre hl).trans
      (callEach_error pre l [] args w w1 w2 err hpre hl).symm⟩

/-- C15, on the example: A logs, B logs and throws, C is registered last; the
emission logs A and B only and ends with the error of B. -/
theorem emit_stops_at_error_witness :
    registeredUnder "update"
        [("update", logger "A"), ("update", thrower "B" "boom"), ("update", logger "C")] =
      [logger "A"] ++ thrower "B" "boom" :: [logger "C"] ∧
    callEach [logger "A"] ["x.html"] [] = ([("A", ["x.html"])], none) ∧
    thrower "B" "boom" ["x.html"] [("A", ["x.html"])] =
      ([("A", ["x.html"]), ("B", ["x.html"])], some "boom") ∧
    emit (register (Listeners.fresh _)
        [("update", logger "A"), ("update", thrower "B" "boom"), ("update", logger "C")])
        "update" ["x.html"] [] =
      ([("A", ["x.html"]), ("B", ["x.html"])], some "boom") := by
  refine ⟨rfl, rfl, rfl, ?_⟩
  exact (emit_stops_at_error
    [("update", logger "A"), ("update", thrower "B" "boom"), ("update", logger "C")]
    "update" ["x.html"] [] [("A", ["x.html"])] [("A", ["x.html"]), ("B", ["x.html"])]
    [logger "A"] (thrower "B" "boom") [logger "C"] "boom" rfl rfl rfl).1

/-! ## Reading the emitted literals back -/

theorem readEscaped_plain (c : Char) (rest : List Char) (h1 : c ≠ '\\') (h2 : c ≠ '"') :
    readEscaped false (c :: rest) =
      match readEscaped false rest with
      | some (v, after) => some (c :: v, after)
      | none => none := by
  simp only [readEscaped, h1, h2, if_false]

theorem readEscaped_backslash (c : Char) (rest : List Char) :
    readEscaped false ('\\' :: c :: rest) =
      match readEscaped false rest with
      | some (v, after) => some (c :: v, after)
      | none => none := by
  simp only [readEscaped, if_true]

theorem readEscaped_close (rest : List Char) :
    readEscaped false ('"' :: rest) = some ([], rest) := by
  have h : ('"' : Char) ≠ '\\' := by decide
  simp only [readEscaped, h, if_false, if_true]

theorem not_special_of_isWordOrHyphen {c : Char} (h : isWordOrHyphen c = true) :
    c ≠ '\\' ∧ c ≠ '"' := by
  constructor
  · intro hc
    subst hc
    revert h
    decide
  · intro hc
    subst hc
    revert h
    decide

theorem readEscaped_raw (l rest : List Char) (h : ∀ c ∈ l, c ≠ '\\' ∧ c ≠ '"') :
    readEscaped false (l ++ '"' :: rest) = some (l, rest) := by
  induction l with
  | nil => exact readEscaped_close rest
  | cons a t ih =>
    have ha := h a (List.mem_cons_self a t)
    have ht := ih (fun c hc => h c (List.mem_cons_of_mem a hc))
    rw [List.cons_append, readEscaped_plain a _ ha.1 ha.2, ht]

theorem readEscaped_escaped (l rest : List Char) (h : ∀ c ∈ l, c ≠ '\\') :
    readEscaped false
        (l.flatMap (fun d => if d = '"' then ['\\', '"'] else [d]) ++ '"' :: rest) =
      some (l, rest) := by
  induction l with
  | nil => exact readEscaped_close rest
  | cons a t ih =>
    have ha := h a (List.mem_cons_self a t)
    have ht := ih (fun c hc => h c (List.mem_cons_of_mem a hc))
    rw [List.flatMap_cons]
    by_cases hquote : a = '"'
    · subst hquote
      rw [if_pos rfl]
      simp only [List.cons_append, List.nil_append]
      rw [readEscaped_backslash, ht]
    · rw [if_neg hquote]
      simp only [List.cons_append, List.nil_append]
      rw [readEscaped_plain a _ ha hquote, ht]

/-- A string token whose value has no backslash reads back as its value, with
or without double quotes in it. -/
theorem readLiteral_tokenText_string (v : String) (h : ∀ c ∈ v.data, c ≠ '\\') :
    readLiteral (tokenText ⟨"string", v⟩) = some v := by
  have hq : "\\\"".data = ['\\', '"'] := rfl
  have hdata : (tokenText ⟨"string", v⟩).data =
      '"' :: (v.data.flatMap (fun d => if d = '"' then ['\\', '"'] else [d]) ++ '"' :: []) := by
    simp only [tokenText, replaceAll, if_true, String.data_append, hq]
    rfl
  unfold readLiteral
  rw [hdata]
  simp only [if_true, readEscaped_escaped v.data [] h]

/-- A regex token is emitted between slashes, with a backslash put before each
slash of its value. -/
theorem tokenText_regex (v : String) :
    tokenText ⟨"regex", v⟩ = "/" ++ replaceAll '/' "\\/" v ++ "/" := by
  simp [tokenText]

/-- A token that is neither a string nor a regex is emitted as its value. -/
theorem tokenText_other (t : Token) (h1 : t.type ≠ "string") (h2 : t.type ≠ "regex") :
    tokenText t = t.value := by
  simp [tokenText, h1, h2]

/-- C21, where the code departs from it: the string token with the value
`a\b` (written `"a\\b"` in a template) is emitted as `"a\b"`, the backslash not
escaped, and that literal reads back as `ab`; a value that is one backslash is
emitted as a literal that does not end.  A double quote is escaped and reads
back. -/
theorem tokenText_backslash_read_back :
    tokenText ⟨"string", "a\\b"⟩ = "\"a\\b\"" ∧
      readLiteral (tokenText ⟨"string", "a\\b"⟩) = some "ab" ∧
      readLiteral (tokenText ⟨"string", "a\\b"⟩) ≠ some "a\\b" ∧
      readLiteral (tokenText ⟨"string", "\\"⟩) = none ∧
      readLiteral (tokenText ⟨"string", "a\"b"⟩) = some "a\"b" := by
  refine ⟨by decide, by decide, by decide, by decide, by decide⟩

/-! ## The rewriter and the parser together -/

theorem dropText_append (pre s : List Char) : dropText pre (pre ++ s) = some s := by
  induction pre with
  | nil => cases s <;> rfl
  | cons a t ih =>
    show (if a = a then dropText t (t ++ s) else none) = some s
    rw [if_pos rfl, ih]

/-- The target that the emitted directive denotes, on lists of characters: a
first literal `m:` without a special character and a second literal that is
`q` with its double quotes escaped, `q` having no backslash. -/
theorem includeTarget_emitted (m q : List Char) (hm : ∀ c ∈ m, c ≠ '\\' ∧ c ≠ '"')
    (hq : ∀ c ∈ q, c ≠ '\\') :
    includeTarget
        ⟨"\x7b% include \"".data ++ (m ++ (":\" + \"".data ++
          (q.flatMap (fun d => if d = '"' then ['\\', '"'] else [d]) ++ "\" %\x7d".data)))⟩ =
      some ⟨(m ++ [':']) ++ q⟩ := by
  have h1 : m ++ (":\" + \"".data ++
      (q.flatMap (fun d => if d = '"' then ['\\', '"'] else [d]) ++ "\" %\x7d".data)) =
      (m ++ [':']) ++ '"' :: (" + \"".data ++
        (q.flatMap (fun d => if d = '"' then ['\\', '"'] else [d]) ++ '"' :: " %\x7d".data)) := by
    have e1 : ":\" + \"".data = ':' :: '"' :: " + \"".data := rfl
    have e2 : "\" %\x7d".data = '"' :: " %\x7d".data := rfl
    rw [e1, e2]
    simp
  have hm2 : ∀ c ∈ m ++ [':'], c ≠ '\\' ∧ c ≠ '"' := by
    intro c hc
    rcases List.mem_append.1 hc with hc | hc
    · exact hm c hc
    · rw [List.mem_singleton] at hc
      subst hc
      exact ⟨by decide, by decide⟩
  unfold includeTarget
  simp only [dropText_append, h1, readEscaped_raw _ _ hm2, readEscaped_escaped _ _ hq, if_true]

/-- For a path with a backslash the emitted directive denotes another target:
the backslash is written out as it is and escapes the character after it. -/
theorem includeTarget_backslash :
    rewriteTokens "blog" (includeTokens "a\\b") =
        "\x7b% include \"blog:\" + \"a\\b\" %\x7d" ∧
      includeTarget (rewriteTokens "blog" (includeTokens "a\\b")) = some "blog:ab" := by
  refine ⟨by decide, by decide⟩

/-- C4, as stated, fails at the path `a"b`, which is non-empty, has no line
break and no module prefix: the string token is written out with its double
quote escaped, so the text emitted is not the path between two double
quotes.  The target that the emitted text denotes is still `blog:a"b`. -/
theorem rewrite_include_counterexample :
    "a\"b" ≠ "" ∧ (∀ c ∈ "a\"b".data, isLineTerminator c = false) ∧
      (parse "a\"b").moduleName = none ∧
      rewriteTokens "blog" (includeTokens "a\"b") ≠
        "\x7b% include \"" ++ "blog" ++ ":\" + \"" ++ "a\"b" ++ "\" %\x7d" ∧
      rewriteTokens "blog" (includeTokens "a\"b") =
        "\x7b% include \"blog:\" + \"a\\\"b\" %\x7d" ∧
      includeTarget (rewriteTokens "blog" (includeTokens "a\"b")) = some "blog:a\"b" := by
  refine ⟨by decide, by decide, ?_, by decide, by decide, by decide⟩
  rw [parse_of_none (show nameMatch "a\"b" = none by decide)]

/-- C4, amended. For a module name `m` of two or more word characters or
hyphens and a path `p` that is non-empty, has no line break and no module
prefix of its own, the token loop run on the directive including `p` emits the
directive with `"m:" +` put before the path and the path written between double
quotes with a backslash before each of its double quotes (so the path itself
between double quotes when it has none); `resolveTemplatePathsViaModule`
returns that text for a source the lexer cuts into this directive; when `p`
has no backslash, the include target that the emitted text denotes is `m:p`,
and it parses to the module name `m` and the path `p`; and the name `m:p`
parses so for every such `p`. -/
theorem rewrite_include_then_parse (m p : String) (hm : 2 ≤ m.length)
    (hw : ∀ c ∈ m.data, isWordOrHyphen c = true) (hp : p ≠ "")
    (hl : ∀ c ∈ p.data, isLineTerminator c = false) (hnp : (parse p).moduleName = none) :
    rewriteTokens m (includeTokens p) =
        "\x7b% include \"" ++ m ++ ":\" + \"" ++ replaceAll '"' "\\\"" p ++ "\" %\x7d" ∧
      ('"' ∉ p.data → replaceAll '"' "\\\"" p = p) ∧
      (∀ (env : Env) (src : String), env.lex src = .ok (includeTokens p) →
        resolveTemplatePathsViaModule env src m =
          .ok ("\x7b% include \"" ++ m ++ ":\" + \"" ++ replaceAll '"' "\\\"" p ++ "\" %\x7d")) ∧
      ((∀ c ∈ p.data, c ≠ '\\') →
        includeTarget (rewriteTokens m (includeTokens p)) = some (m ++ ":" ++ p) ∧
          (includeTarget (rewriteTokens m (includeTokens p))).map parse =
            some ⟨some m, p⟩) ∧
      parse (m ++ ":" ++ p) = ⟨some m, p⟩ := by
  have hout : rewriteTokens m (includeTokens p) =
      "\x7b% include \"" ++ m ++ ":\" + \"" ++ replaceAll '"' "\\\"" p ++ "\" %\x7d" := by
    apply String.ext
    simp [rewriteTokens, includeTokens, rewriteToken, tokenText, pathKeywords,
      String.data_append]
  have hparse : parse (m ++ ":" ++ p) = ⟨some m, p⟩ := by
    unfold parse
    rw [parseLoop_of_some none (nameMatch_append m p hm hw hp hl),
      parseLoop_of_none (some m) (nameMatch_none_of_parse hnp)]
  refine ⟨hout, ?_, ?_, ?_, hparse⟩
  · intro hq
    apply String.ext
    show p.data.flatMap _ = p.data
    have key : ∀ l : List Char, '"' ∉ l →
        l.flatMap (fun d => if d = '"' then "\\\"".data else [d]) = l := by
      intro l
      induction l with
      | nil => intro _; rfl
      | cons a t ih =>
        intro ha
        have h1 : a ≠ '"' := fun h => ha (h ▸ List.mem_cons_self a t)
        have h2 : '"' ∉ t := fun h => ha (List.mem_cons_of_mem a h)
        simp [List.flatMap_cons, h1, ih h2]
    exact key p.data hq
  · intro env src hlex
    unfold resolveTemplatePathsViaModule
    simp only [hlex]
    rw [hout]
  · intro hb
    have htext : rewriteTokens m (includeTokens p) =
        ⟨"\x7b% include \"".data ++ (m.data ++ (":\" + \"".data ++
          (p.data.flatMap (fun d => if d = '"' then ['\\', '"'] else [d]) ++
            "\" %\x7d".data)))⟩ := by
      rw [hout]
      apply String.ext
      simp only [String.data_append, List.append_assoc, replaceAll]
    have htarget : includeTarget (rewriteTokens m (includeTokens p)) =
        some (m ++ ":" ++ p) := by
      rw [htext, includeTarget_emitted m.data p.data
        (fun c hc => not_special_of_isWordOrHyphen (hw c hc)) hb]
      congr 1
    rw [htarget]
    exact ⟨rfl, by rw [Option.map_some', hparse]⟩

/-- C4, at the module `blog` and the path `foo.html` of the example. -/
theorem rewrite_include_then_parse_witness :
    2 ≤ "blog".length ∧ (∀ c ∈ "blog".data, isWordOrHyphen c = true) ∧ "foo.html" ≠ "" ∧
      (∀ c ∈ "foo.html".data, isLineTerminator c = false) ∧
      (parse "foo.html").moduleName = none ∧
      rewriteTokens "blog" (includeTokens "foo.html") =
        "\x7b% include \"blog:\" + \"foo.html\" %\x7d" ∧
      includeTarget (rewriteTokens "blog" (includeTokens "foo.html")) = some "blog:foo.html" ∧
      parse "blog:foo.html" = ⟨some "blog", "foo.html"⟩ := by
  have hnp : (parse "foo.html").moduleName = none := by
    rw [parse_of_none (show nameMatch "foo.html" = none by decide)]
  have h := rewrite_include_then_parse "blog" "foo.html" (by decide) (by decide) (by decide)
    (by decide) hnp
  exact ⟨by decide, by decide, by decide, by decide, hnp, h.1.trans (by decide),
    (h.2.2.2.1 (by decide)).1, h.2.2.2.2⟩

/-! ## The shape of a parse -/

/-- What the loop leaves behind: the path does not match any more and is a
suffix of the name; a module name is the one the loop was entered with, the
name then being the path, or it stands with a colon right before the path. -/
theorem parseLoop_shape (mn : Option String) (name : String) :
    nameMatch (parseLoop mn name).modulePath = none ∧
      (∃ pre : List Char, name.data = pre ++ (parseLoop mn name).modulePath.data) ∧
      (∀ m, (parseLoop mn name).moduleName = some m →
        (mn = some m ∧ (parseLoop mn name).modulePath = name) ∨
          ((∀ c ∈ m.data, isWordOrHyphen c = true) ∧ 2 ≤ m.data.length ∧
            (∃ pre : List Char,
              name.data = pre ++ (m.data ++ ':' :: (parseLoop mn name).modulePath.data)) ∧
            (parseLoop mn name).modulePath.data ≠ [])) := by
  refine parseLoop_induction
    (P := fun mn name r => nameMatch r.modulePath = none ∧
      (∃ pre : List Char, name.data = pre ++ r.modulePath.data) ∧
      (∀ m, r.moduleName = some m →
        (mn = some m ∧ r.modulePath = name) ∨
          ((∀ c ∈ m.data, isWordOrHyphen c = true) ∧ 2 ≤ m.data.length ∧
            (∃ pre : List Char, name.data = pre ++ (m.data ++ ':' :: r.modulePath.data)) ∧
            r.modulePath.data ≠ [])))
    ?_ ?_ mn name
  · intro mn name hnone
    exact ⟨hnone, ⟨[], rfl⟩, fun m hm => Or.inl ⟨hm, rfl⟩⟩
  · intro mn name m1 rest hmatch ih
    obtain ⟨ih1, ⟨pre, hpre⟩, ih3⟩ := ih
    obtain ⟨hdata, hlen, hne, hword, -⟩ := nameMatch_data hmatch
    refine ⟨ih1, ⟨m1.data ++ ':' :: pre, ?_⟩, ?_⟩
    · rw [hdata, hpre]
      simp
    · intro m hm
      right
      rcases ih3 m hm with ⟨h1, h2⟩ | ⟨h1, h2, ⟨pre2, hpre2⟩, h4⟩
      · cases h1
        rw [h2]
        exact ⟨hword, hlen, ⟨[], by rw [hdata]; rfl⟩, hne⟩
      · refine ⟨h1, h2, ⟨m1.data ++ ':' :: pre2, ?_⟩, h4⟩
        rw [hdata, hpre2]
        simp

/-- C22. The path the parser returns is a suffix of the name; a module name it
returns is made of word characters and hyphens, has two characters or more,
and the name ends with the module name, a colon and the path, which is not
empty.  No character of the module name is a double quote or a backslash, so
the literal `"moduleName:"` that the rewriter injects reads back as the module
name and the colon. -/
theorem parse_decomposes (name : String) :
    (∃ pre : String, name = pre ++ (parse name).modulePath) ∧
      (∀ m, (parse name).moduleName = some m →
        (∀ c ∈ m.data, isWordOrHyphen c = true) ∧ 2 ≤ m.length ∧
          (∃ pre : String, name = pre ++ (m ++ ":" ++ (parse name).modulePath)) ∧
          (parse name).modulePath ≠ "" ∧
          (∀ c ∈ m.data, c ≠ '\\' ∧ c ≠ '"') ∧
          readLiteral ("\"" ++ m ++ ":\"") = some (m ++ ":")) := by
  obtain ⟨-, ⟨pre, hpre⟩, h3⟩ := parseLoop_shape none name
  refine ⟨⟨⟨pre⟩, ?_⟩, ?_⟩
  · apply String.ext
    rw [String.data_append]
    exact hpre
  · intro m hm
    rcases h3 m hm with ⟨h1, -⟩ | ⟨h1, h2, ⟨pre2, hpre2⟩, h4⟩
    · cases h1
    · have hspecial : ∀ c ∈ m.data, c ≠ '\\' ∧ c ≠ '"' :=
        fun c hc => not_special_of_isWordOrHyphen (h1 c hc)
      refine ⟨h1, h2, ⟨⟨pre2⟩, ?_⟩, ?_, hspecial, ?_⟩
      · apply String.ext
        simp only [String.data_append]
        rw [hpre2]
        simp [parse]
      · intro h0
        apply h4
        show (parse name).modulePath.data = []
        rw [h0]
      · have hdata : ("\"" ++ m ++ ":\"").data = '"' :: ((m.data ++ [':']) ++ '"' :: []) := by
          simp [String.data_append]
        have hall : ∀ c ∈ m.data ++ [':'], c ≠ '\\' ∧ c ≠ '"' := by
          intro c hc
          rcases List.mem_append.mp hc with hc | hc
          · exact hspecial c hc
          · rw [List.mem_singleton] at hc
            subst hc
            decide
        unfold readLiteral
        rw [hdata]
        simp only [if_true, readEscaped_raw (m.data ++ [':']) [] hall]
        congr 1

/-- C22, on the example `moduleA:moduleB:foo.html`: the module name is
`moduleB` and the name ends with `moduleB:foo.html`. -/
theorem parse_decomposes_witness :
    (parse "moduleA:moduleB:foo.html").moduleName = some "moduleB" ∧
      (parse "moduleA:moduleB:foo.html").modulePath = "foo.html" ∧
      2 ≤ "moduleB".length ∧
      (∃ pre : String, "moduleA:moduleB:foo.html" =
        pre ++ ("moduleB" ++ ":" ++ (parse "moduleA:moduleB:foo.html").modulePath)) ∧
      readLiteral ("\"" ++ "moduleB" ++ ":\"") = some ("moduleB" ++ ":") := by
  have hparse : parse "moduleA:moduleB:foo.html" = ⟨some "moduleB", "foo.html"⟩ := by
    unfold parse
    rw [parseLoop_of_some none
        (show nameMatch "moduleA:moduleB:foo.html" = some ("moduleA", "moduleB:foo.html")
          by decide),
      parseLoop_of_some (some "moduleA")
        (show nameMatch "moduleB:foo.html" = some ("moduleB", "foo.html") by decide),
      parseLoop_of_none (some "moduleB") (show nameMatch "foo.html" = none by decide)]
  have hm : (parse "moduleA:moduleB:foo.html").moduleName = some "moduleB" := by
    rw [hparse]
  have h := (parse_decomposes "moduleA:moduleB:foo.html").2 "moduleB" hm
  exact ⟨hm, by rw [hparse], h.2.1, h.2.2.1, h.2.2.2.2.2⟩

/-- C23. The path the parser returns has no module prefix of its own: parsed
again, it yields no module name and itself as the path. -/
theorem parse_residual_idempotent (name : String) :
    parse (parse name).modulePath = ⟨none, (parse name).modulePath⟩ :=
  parse_of_none (parseLoop_shape none name).1

/-! ## The number of turns -/

theorem parseLoopFuel_turns (mn : Option String) (name : String) :
    ∃ turns, 1 ≤ turns ∧ 3 * turns ≤ name.length + 3 ∧
      ∀ fuel, (turns ≤ fuel → parseLoopFuel fuel mn name = some (parseLoop mn name, turns)) ∧
        (fuel < turns → parseLoopFuel fuel mn name = none) := by
  refine parseLoop_induction
    (P := fun mn name r => ∃ turns, 1 ≤ turns ∧ 3 * turns ≤ name.length + 3 ∧
      ∀ fuel, (turns ≤ fuel → parseLoopFuel fuel mn name = some (r, turns)) ∧
        (fuel < turns → parseLoopFuel fuel mn name = none))
    ?_ ?_ mn name
  · intro mn name hnone
    refine ⟨1, Nat.le_refl 1, by omega, ?_⟩
    intro fuel
    cases fuel with
    | zero =>
      refine ⟨fun h => ?_, fun _ => rfl⟩
      omega
    | succ f =>
      refine ⟨fun _ => ?_, fun h => ?_⟩
      · simp only [parseLoopFuel, hnone]
      · omega
  · intro mn name m rest hmatch ih
    obtain ⟨t, ht1, ht3, hfuel⟩ := ih
    have hlen := nameMatch_length hmatch
    refine ⟨t + 1, by omega, by omega, ?_⟩
    intro fuel
    cases fuel with
    | zero =>
      refine ⟨fun h => ?_, fun _ => rfl⟩
      omega
    | succ f =>
      refine ⟨fun h => ?_, fun h => ?_⟩
      · simp only [parseLoopFuel, hmatch, (hfuel f).1 (by omega)]
      · simp only [parseLoopFuel, hmatch, (hfuel f).2 (by omega)]

/-- C24. A turn of the loop that does not leave it replaces the name by a
suffix that is at least three characters shorter; so for every name the loop
is left after a number of turns that is at most `length(name) / 3 + 1`: with
that much fuel or more the bounded loop gives the result of `parseLoop`, and
with less than the number of turns it gives none. -/
theorem parseLoop_terminates (mn : Option String) (name : String) :
    (∀ m rest, nameMatch name = some (m, rest) →
        rest.length + 3 ≤ name.length ∧ ∃ pre : String, name = pre ++ rest) ∧
      (∃ turns, turns ≤ name.length / 3 + 1 ∧
        (∀ fuel, turns ≤ fuel → parseLoopFuel fuel mn name = some (parseLoop mn name, turns)) ∧
        (∀ fuel, fuel < turns → parseLoopFuel fuel mn name = none)) ∧
      parseLoopFuel (name.length / 3 + 1) mn name ≠ none := by
  obtain ⟨t, -, ht3, hfuel⟩ := parseLoopFuel_turns mn name
  have hbound : t ≤ name.length / 3 + 1 := by omega
  refine ⟨?_, ⟨t, hbound, fun fuel h => (hfuel fuel).1 h, fun fuel h => (hfuel fuel).2 h⟩, ?_⟩
  · intro m rest hmatch
    refine ⟨nameMatch_length hmatch, ⟨m ++ ":", ?_⟩⟩
    apply String.ext
    simp [String.data_append, (nameMatch_data hmatch).1]
  · rw [(hfuel _).1 hbound]
    simp

/-- C24, on the example `moduleA:moduleB:foo.html`, 24 characters long: the
first turn leaves `moduleB:foo.html`, and the loop is left in the third turn,
within the bound of 9. -/
theorem parseLoop_terminates_witness :
    nameMatch "moduleA:moduleB:foo.html" = some ("moduleA", "moduleB:foo.html") ∧
      "moduleB:foo.html".length + 3 ≤ "moduleA:moduleB:foo.html".length ∧
      parseLoopFuel ("moduleA:moduleB:foo.html".length / 3 + 1) none
          "moduleA:moduleB:foo.html" =
        some ({ moduleName := some "moduleB", modulePath := "foo.html" }, 3) ∧
      parseLoopFuel 2 none "moduleA:moduleB:foo.html" = none ∧
      parseLoopFuel ("moduleA:moduleB:foo.html".length / 3 + 1) none
          "moduleA:moduleB:foo.html" ≠ none := by
  have hmatch : nameMatch "moduleA:moduleB:foo.html" =
      some ("moduleA", "moduleB:foo.html") := by decide
  have h := parseLoop_terminates none "moduleA:moduleB:foo.html"
  exact ⟨hmatch, (h.1 "moduleA" "moduleB:foo.html" hmatch).1, by decide, by decide, h.2.2⟩

end NunjucksLoader

namespace Login

/-! ## Permissions -/

theorem mem_grant (perms : List String) (y x : String) :
    x ∈ grant perms y ↔ x ∈ perms ∨ (x = y ∧ y ≠ "__proto__") := by
  unfold grant
  by_cases hy : y = "__proto__"
  · simp [hy]
  · rw [if_neg hy]
    by_cases h : y ∈ perms
    · simp only [h, if_true]
      constructor
      · exact Or.inl
      · rintro (h1 | ⟨h1, -⟩)
        · exact h1
        · rw [h1]
          exact h
    · simp [h, hy]

theorem mem_foldl_grant (ps perms : List String) (x : String) :
    x ∈ ps.foldl grant perms ↔ x ∈ perms ∨ (x ∈ ps ∧ x ≠ "__proto__") := by
  induction ps generalizing perms with
  | nil => simp
  | cons a t ih =>
    rw [List.foldl_cons, ih, mem_grant]
    simp only [List.mem_cons]
    constructor
    · rintro ((h | ⟨h, ha⟩) | ⟨h, hx⟩)
      · exact Or.inl h
      · exact Or.inr ⟨Or.inl h, h ▸ ha⟩
      · exact Or.inr ⟨Or.inr h, hx⟩
    · rintro (h | ⟨h | h, hx⟩)
      · exact Or.inl (Or.inl h)
      · exact Or.inl (Or.inr ⟨h, h ▸ hx⟩)
      · exact Or.inr ⟨h, hx⟩

theorem mem_foldl_groups (groups : List Group) (perms : List String) (x : String) :
    x ∈ groups.foldl
        (fun (perms : List String) (group : Group) =>
          (match group.permissions with
            | some ps => ps
            | none => []).foldl grant perms)
        perms ↔
      x ∈ perms ∨ ((∃ g ∈ groups, x ∈ listedOn g) ∧ x ≠ "__proto__") := by
  induction groups generalizing perms with
  | nil => simp
  | cons g gs ih =>
    rw [List.foldl_cons, ih, mem_foldl_grant]
    simp only [List.mem_cons, listedOn]
    constructor
    · rintro ((h | ⟨h, hx⟩) | ⟨⟨g2, hg2, h⟩, hx⟩)
      · exact Or.inl h
      · exact Or.inr ⟨⟨g, Or.inl rfl, h⟩, hx⟩
      · exact Or.inr ⟨⟨g2, Or.inr hg2, h⟩, hx⟩
    · rintro (h | ⟨⟨g2, hg2 | hg2, h⟩, hx⟩)
      · exact Or.inl (Or.inl h)
      · subst hg2
        exact Or.inl (Or.inr ⟨h, hx⟩)
      · exact Or.inr ⟨⟨g2, hg2, h⟩, hx⟩

theorem matchesAdmin_append (rest : String) : matchesAdmin ("admin-" ++ rest) = true := by
  unfold matchesAdmin
  have h : ("admin-" ++ rest).data = ['a', 'd', 'm', 'i', 'n', '-'] ++ rest.data := by
    rw [String.data_append]
  rw [h]
  simp

/-- The three steps after the permissions were collected keep every permission
and make the result progressive. -/
theorem makeProgressive_spec (p2 : List String) :
    (∀ x ∈ p2, x ∈ makeProgressive p2) ∧
      ("admin" ∈ makeProgressive p2 → "edit" ∈ makeProgressive p2) ∧
      ("edit" ∈ makeProgressive p2 → "guest" ∈ makeProgressive p2) ∧
      (∀ key ∈ makeProgressive p2, matchesAdmin key = true →
        "guest" ∈ makeProgressive p2 ∧ "edit" ∈ makeProgressive p2) := by
  unfold makeProgressive
  dsimp only
  generalize hp3 : (if "admin" ∈ p2 then grant p2 "edit" else p2) = p3
  generalize hp4 : (if "edit" ∈ p3 then grant p3 "guest" else p3) = p4
  have hep : ("edit" : String) ≠ "__proto__" := by decide
  have hgp : ("guest" : String) ≠ "__proto__" := by decide
  have h23 : ∀ x, x ∈ p3 ↔ x ∈ p2 ∨ ("admin" ∈ p2 ∧ x = "edit") := by
    intro x
    rw [← hp3]
    by_cases h : "admin" ∈ p2
    · simp [h, mem_grant, hep]
    · simp [h]
  have h34 : ∀ x, x ∈ p4 ↔ x ∈ p3 ∨ ("edit" ∈ p3 ∧ x = "guest") := by
    intro x
    rw [← hp4]
    by_cases h : "edit" ∈ p3
    · simp [h, mem_grant, hgp]
    · simp [h]
  have hae : ("admin" : String) ≠ "edit" := by decide
  have hag : ("admin" : String) ≠ "guest" := by decide
  have heg : ("edit" : String) ≠ "guest" := by decide
  by_cases h5 : p4.any matchesAdmin = true
  · rw [if_pos h5]
    refine ⟨?_, fun _ => ?_, fun _ => ?_, fun _ _ _ => ⟨?_, ?_⟩⟩
    · intro x hx
      rw [mem_grant, mem_grant, h34, h23]
      exact Or.inl (Or.inl (Or.inl (Or.inl hx)))
    · rw [mem_grant]
      exact Or.inr ⟨rfl, hep⟩
    · rw [mem_grant, mem_grant]
      exact Or.inl (Or.inr ⟨rfl, hgp⟩)
    · rw [mem_grant, mem_grant]
      exact Or.inl (Or.inr ⟨rfl, hgp⟩)
    · rw [mem_grant]
      exact Or.inr ⟨rfl, hep⟩
  · rw [if_neg h5]
    refine ⟨?_, ?_, ?_, ?_⟩
    · intro x hx
      rw [h34, h23]
      exact Or.inl (Or.inl hx)
    · intro ha
      rw [h34, h23] at ha
      rw [h34, h23]
      rcases ha with (ha | ⟨_, ha⟩) | ⟨_, ha⟩
      · exact Or.inl (Or.inr ⟨ha, rfl⟩)
      · exact absurd ha hae
      · exact absurd ha hag
    · intro hed
      rw [h34] at hed
      rw [h34]
      rcases hed with hed | ⟨_, hed⟩
      · exact Or.inr ⟨hed, rfl⟩
      · exact absurd hed heg
    · intro key hkey hm
      exfalso
      apply h5
      rw [List.any_eq_true]
      exact ⟨key, hkey, hm⟩

theorem mem_collectPermissions (user : User) (x : String) :
    x ∈ collectPermissions user ↔
      ((∃ g ∈ groupsOf user, x ∈ listedOn g) ∨ x ∈ listedOnUser user) ∧ x ≠ "__proto__" := by
  unfold collectPermissions
  dsimp only
  rw [mem_foldl_grant, mem_foldl_groups]
  simp only [List.not_mem_nil, false_or]
  constructor
  · rintro (⟨h, hx⟩ | ⟨h, hx⟩)
    · exact ⟨Or.inl h, hx⟩
    · exact ⟨Or.inr h, hx⟩
  · rintro ⟨h | h, hx⟩
    · exact Or.inl ⟨h, hx⟩
    · exact Or.inr ⟨h, hx⟩

/-- What `loginDeserialize` does for the names other than `__proto__`:
afterwards `user._permissions` holds every such permission listed on a group
of the user or on the user itself; `admin` brings `edit`, `edit` brings
`guest`, and any permission whose name starts with `admin-` brings both
`guest` and `edit`. -/
theorem loginDeserialize_progressive (user : User) :
    (∀ g ∈ groupsOf user, ∀ x ∈ listedOn g, x ≠ "__proto__" →
        x ∈ (loginDeserialize user)._permissions) ∧
      (∀ x ∈ listedOnUser user, x ≠ "__proto__" → x ∈ (loginDeserialize user)._permissions) ∧
      ("admin" ∈ (loginDeserialize user)._permissions →
        "edit" ∈ (loginDeserialize user)._permissions) ∧
      ("edit" ∈ (loginDeserialize user)._permissions →
        "guest" ∈ (loginDeserialize user)._permissions) ∧
      (∀ key rest, key ∈ (loginDeserialize user)._permissions → key = "admin-" ++ rest →
        "guest" ∈ (loginDeserialize user)._permissions ∧
          "edit" ∈ (loginDeserialize user)._permissions) := by
  obtain ⟨hsub, h1, h2, h3⟩ := makeProgressive_spec (collectPermissions user)
  refine ⟨?_, ?_, h1, h2, ?_⟩
  · intro g hg x hx hne
    exact hsub x ((mem_collectPermissions user x).2 ⟨Or.inl ⟨g, hg, hx⟩, hne⟩)
  · intro x hx hne
    exact hsub x ((mem_collectPermissions user x).2 ⟨Or.inr hx, hne⟩)
  · intro key rest hkey hk
    exact h3 key hkey (by rw [hk]; exact matchesAdmin_append rest)

/-- The same on a user with the permission `admin-apostrophe-blog` from a
group and `admin` of its own. -/
theorem loginDeserialize_progressive_witness :
    (loginDeserialize
        { _groups := some [{ permissions := some ["admin-apostrophe-blog"] }],
          permissions := some ["admin"], _permissions := [] })._permissions =
      ["admin-apostrophe-blog", "admin", "edit", "guest"] ∧
    "edit" ∈ (loginDeserialize
        { _groups := some [{ permissions := some ["admin-apostrophe-blog"] }],
          permissions := some ["admin"], _permissions := [] })._permissions ∧
    ("guest" ∈ (loginDeserialize
        { _groups := some [{ permissions := some ["admin-apostrophe-blog"] }],
          permissions := some ["admin"], _permissions := [] })._permissions ∧
      "edit" ∈ (loginDeserialize
        { _groups := some [{ permissions := some ["admin-apostrophe-blog"] }],
          permissions := some ["admin"], _permissions := [] })._permissions) := by
  have h := loginDeserialize_progressive
    { _groups := some [{ permissions := some ["admin-apostrophe-blog"] }],
      permissions := some ["admin"], _permissions := [] }
  exact ⟨by decide, h.2.2.1 (by decide),
    h.2.2.2.2 "admin-apostrophe-blog" "apostrophe-blog" (by decide) (by decide)⟩

/-- C17, where the code departs from it: a user whose own permissions are
`__proto__` and `edit`, in a group that lists `__proto__` too.  The permission
`__proto__` is listed on the group and on the user, but after the call it is
not among the names set to `true` in `user._permissions`, which holds `edit`
and `guest` only: the assignment under that name was ignored. -/
theorem loginDeserialize_proto_not_set :
    "__proto__" ∈ listedOn { permissions := some ["__proto__"] } ∧
      "__proto__" ∈ listedOnUser
        { _groups := some [{ permissions := some ["__proto__"] }],
          permissions := some ["__proto__", "edit"], _permissions := [] } ∧
      (loginDeserialize
        { _groups := some [{ permissions := some ["__proto__"] }],
          permissions := some ["__proto__", "edit"], _permissions := [] })._permissions =
        ["edit", "guest"] ∧
      "__proto__" ∉ (loginDeserialize
        { _groups := some [{ permissions := some ["__proto__"] }],
          permissions := some ["__proto__", "edit"], _permissions := [] })._permissions := by
  refine ⟨by decide, by decide, by decide, by decide⟩

/-! ## Password rules -/

theorem eachRule_ok (rules : String → Option Rule) (password : String) (names : List String)
    (errors : List String) (hreg : ∀ n ∈ names, ∃ rule, rules n = some rule) :
    eachRule rules password names errors =
      .ok (errors ++ failedMessages rules password names) := by
  induction names generalizing errors with
  | nil => simp [eachRule, failedMessages]
  | cons a t ih =>
    obtain ⟨rule, hrule⟩ := hreg a (List.mem_cons_self a t)
    have ht : ∀ n ∈ t, ∃ rule, rules n = some rule :=
      fun n hn => hreg n (List.mem_cons_of_mem a hn)
    have hcons : failedMessages rules password (a :: t) =
        (if rule.test password then [] else [rule.message]) ++
          failedMessages rules password t := by
      unfold failedMessages
      rw [List.filterMap_cons]
      simp only [hrule]
      by_cases hp : rule.test password = true
      · simp [hp]
      · simp [hp]
    rw [hcons]
    simp only [eachRule, hrule]
    by_cases hp : rule.test password = true
    · rw [if_pos hp, if_pos hp, ih errors ht]
      simp
    · rw [if_neg hp, if_neg hp, ih _ ht]
      simp

theorem failedMessages_eq_nil (rules : String → Option Rule) (password : String)
    (names : List String) :
    failedMessages rules password names = [] ↔
      ∀ n ∈ names, ∀ rule, rules n = some rule → rule.test password = true := by
  induction names with
  | nil => simp [failedMessages]
  | cons a t ih =>
    unfold failedMessages at ih ⊢
    rw [List.filterMap_cons]
    cases hrule : rules a with
    | none =>
      simp only [ih, List.mem_cons]
      constructor
      · intro h n hn rule hr
        rcases hn with hn | hn
        · subst hn
          rw [hrule] at hr
          cases hr
        · exact h n hn rule hr
      · intro h n hn rule hr
        exact h n (Or.inr hn) rule hr
    | some rule =>
      by_cases hp : rule.test password = true
      · simp only [hp, if_true, ih, List.mem_cons]
        constructor
        · intro h n hn rule2 hr
          rcases hn with hn | hn
          · subst hn
            rw [hrule] at hr
            cases hr
            exact hp
          · exact h n hn rule2 hr
        · intro h n hn rule2 hr
          exact h n (Or.inr hn) rule2 hr
      · simp only [hp, if_false, List.mem_cons]
        constructor
        · intro h
          cases h
        · intro h
          exact absurd (h a (Or.inl rfl) rule hrule) hp

/-- C18, as stated, fails: with `passwordMinLength` set to 0 and no rule named,
the empty password is as long as the option asks and passes every rule named,
yet the list returned holds the length message. -/
theorem checkPasswordRules_counterexample :
    (0 : Nat) ≤ jsLength "" ∧
      ruleNames { passwordMinLength := some 0, passwordRules := none } = [] ∧
      checkPasswordRules
          { options := { passwordMinLength := some 0, passwordRules := none },
            passwordRules := passwordRules }
          (fun s => s) "" =
        .ok ["Passwords must be at least 1 characters long."] := by
  refine ⟨by decide, rfl, by rfl⟩

/-- C18, amended. The minimum length is `passwordMinLength`, or 1 when the
option is unset or 0.  When every name in `passwordRules` is a registered
rule, `checkPasswordRules` returns the translated length message (if the
password is shorter than the minimum) followed by the translated message of
every rule the password fails, in the configured order; the list is empty
exactly when the password is at least as long as the minimum and passes the
test of every rule named. -/
theorem checkPasswordRules_spec (self : Module) (translate : String → String)
    (password : String)
    (hreg : ∀ n ∈ ruleNames self.options, ∃ rule, self.passwordRules n = some rule) :
    (self.options.passwordMinLength = none → minLength self.options = 1) ∧
      (self.options.passwordMinLength = some 0 → minLength self.options = 1) ∧
      (∀ n, self.options.passwordMinLength = some n → n ≠ 0 → minLength self.options = n) ∧
      checkPasswordRules self translate password =
        .ok (((if jsLength password < minLength self.options then
              [lengthMessage (minLength self.options)] else []) ++
            failedMessages self.passwordRules password (ruleNames self.options)).map
          translate) ∧
      (checkPasswordRules self translate password = .ok [] ↔
        minLength self.options ≤ jsLength password ∧
          ∀ n ∈ ruleNames self.options, ∀ rule, self.passwordRules n = some rule →
            rule.test password = true) := by
  have hres : checkPasswordRules self translate password =
      .ok (((if jsLength password < minLength self.options then
            [lengthMessage (minLength self.options)] else []) ++
          failedMessages self.passwordRules password (ruleNames self.options)).map
        translate) := by
    unfold checkPasswordRules
    dsimp only
    cases hnames : self.options.passwordRules with
    | none =>
      simp [ruleNames, hnames, failedMessages]
    | some names =>
      have hreg2 : ∀ n ∈ names, ∃ rule, self.passwordRules n = some rule := by
        intro n hn
        apply hreg n
        simp only [ruleNames, hnames]
        exact hn
      simp only [eachRule_ok self.passwordRules password names _ hreg2, ruleNames, hnames]
      simp
  refine ⟨?_, ?_, ?_, hres, ?_⟩
  · intro h
    simp [minLength, h]
  · intro h
    simp [minLength, h]
  · intro n h hn
    simp [minLength, h, hn]
  · rw [hres]
    simp only [Except.ok.injEq, List.map_eq_nil_iff, List.append_eq_nil,
      failedMessages_eq_nil]
    constructor
    · rintro ⟨h1, h2⟩
      refine ⟨?_, h2⟩
      by_cases hlt : jsLength password < minLength self.options
      · simp [hlt] at h1
      · omega
    · rintro ⟨h1, h2⟩
      refine ⟨?_, h2⟩
      have hlt : ¬ jsLength password < minLength self.options := by omega
      simp [hlt]

/-- C18, on the example: a minimum of 8 with the rules `digits`,
`noTripleRepeats` and `mixedCase`; the password `aaa` gets the length message
first and then the three rule messages in that order, and `Passw0rd` gets
none. -/
theorem checkPasswordRules_spec_witness :
    (∀ n ∈ ruleNames ⟨some 8, some ["digits", "noTripleRepeats", "mixedCase"]⟩,
        ∃ rule, passwordRules n = some rule) ∧
      checkPasswordRules
          { options := ⟨some 8, some ["digits", "noTripleRepeats", "mixedCase"]⟩,
            passwordRules := passwordRules }
          (fun s => s) "aaa" =
        .ok ["Passwords must be at least 8 characters long.",
          "Passwords must contain digits.",
          "No character may be repeated three times in a row in a password.",
          "Passwords must contain both uppercase and lowercase characters."] ∧
      checkPasswordRules
          { options := ⟨some 8, some ["digits", "noTripleRepeats", "mixedCase"]⟩,
            passwordRules := passwordRules }
          (fun s => s) "Passw0rd" = .ok [] := by
  have hreg : ∀ n ∈ ruleNames ⟨some 8, some ["digits", "noTripleRepeats", "mixedCase"]⟩,
      ∃ rule, passwordRules n = some rule := by
    intro n hn
    simp only [ruleNames, List.mem_cons, List.mem_singleton, List.not_mem_nil, or_false] at hn
    rcases hn with h | h | h <;> subst h
    · exact ⟨digits, rfl⟩
    · exact ⟨noTripleRepeats, rfl⟩
    · exact ⟨mixedCase, rfl⟩
  refine ⟨hreg, ?_, ?_⟩
  · exact (checkPasswordRules_spec
      { options := ⟨some 8, some ["digits", "noTripleRepeats", "mixedCase"]⟩,
        passwordRules := passwordRules }
      (fun s => s) "aaa" hreg).2.2.2.1.trans (by rfl)
  · exact (checkPasswordRules_spec
      { options := ⟨some 8, some ["digits", "noTripleRepeats", "mixedCase"]⟩,
        passwordRules := passwordRules }
      (fun s => s) "Passw0rd" hreg).2.2.2.1.trans (by rfl)

theorem tripleLoop_eq_false (units : List Nat) (turns i : Nat) :
    tripleLoop units turns i = false ↔
      ∃ j, i ≤ j ∧ j < i + turns ∧ units[j]? = units[j + 1]? ∧ units[j]? = units[j + 2]? := by
  induction turns generalizing i with
  | zero =>
    simp only [tripleLoop, Nat.add_zero]
    constructor
    · intro h
      cases h
    · rintro ⟨j, h1, h2, -⟩
      omega
  | succ n ih =>
    unfold tripleLoop
    by_cases h : units[i]? = units[i + 1]? ∧ units[i]? = units[i + 2]?
    · rw [if_pos h]
      simp only [true_iff]
      exact ⟨i, Nat.le_refl i, by omega, h.1, h.2⟩
    · rw [if_neg h, ih]
      constructor
      · rintro ⟨j, h1, h2, h3⟩
        exact ⟨j, by omega, by omega, h3⟩
      · rintro ⟨j, h1, h2, h3⟩
        have hne : j ≠ i := by
          intro hji
          subst hji
          exact h h3
        exact ⟨j, by omega, by omega, h3⟩

/-- C19. The test of `noTripleRepeats` returns false exactly when there is an
index `i`, with `i + 2` still inside the password, at which the three
characters `charAt(i)`, `charAt(i + 1)` and `charAt(i + 2)` are equal; it
returns true for every password shorter than three. -/
theorem noTripleRepeats_test (password : String) :
    (noTripleRepeats.test password = false ↔
        ∃ i, i + 2 < jsLength password ∧
          (codeUnits password)[i]? = (codeUnits password)[i + 1]? ∧
          (codeUnits password)[i]? = (codeUnits password)[i + 2]?) ∧
      (jsLength password < 3 → noTripleRepeats.test password = true) := by
  have hiff : noTripleRepeats.test password = false ↔
      ∃ i, i + 2 < jsLength password ∧
        (codeUnits password)[i]? = (codeUnits password)[i + 1]? ∧
        (codeUnits password)[i]? = (codeUnits password)[i + 2]? := by
    show tripleLoop (codeUnits password) ((codeUnits password).length - 2) 0 = false ↔ _
    rw [tripleLoop_eq_false]
    unfold jsLength
    constructor
    · rintro ⟨j, -, h2, h3⟩
      exact ⟨j, by omega, h3⟩
    · rintro ⟨j, h2, h3⟩
      exact ⟨j, by omega, by omega, h3⟩
  refine ⟨hiff, ?_⟩
  intro hshort
  cases htest : noTripleRepeats.test password with
  | true => rfl
  | false =>
    obtain ⟨i, hi, -⟩ := hiff.1 htest
    omega

/-- C19, on the examples: `aa` is shorter than three, `aaab` repeats `a` three
times from index 0, and `aabaa` has no triple. -/
theorem noTripleRepeats_test_witness :
    jsLength "aa" < 3 ∧ noTripleRepeats.test "aa" = true ∧
      noTripleRepeats.test "aaab" = false ∧ noTripleRepeats.test "aabaa" = true := by
  refine ⟨by decide, (noTripleRepeats_test "aa").2 (by decide), ?_, by decide⟩
  exact (noTripleRepeats_test "aaab").1.2 ⟨0, by decide, by decide, by decide⟩

/-! ## Login attempts -/

/-- C20. When the lookup answers once with `(err, user)` and password
verification answers once, the callback of `verifyLogin` is called with the
error alone when the lookup failed, with `(null, false)` after the delay when
no user was found or verification failed, and with `(null, user)` when a user
was found and verified; it is called exactly once, with an error only when the
lookup failed and with the user only when the user was found and verified. -/
theorem verifyLogin_outcomes {U R : Type} (err : Option Error) (user : Option U)
    (verify : U → String → Option Error) (setTimeout : R → Nat → R)
    (username password : String) (callback : Option Error → Second U → R) :
    (∀ e, err = some e →
        verifyLogin (fun _ k => k err user) (fun u pw k => k (verify u pw)) setTimeout
          username password callback = callback (some e) .undefined) ∧
      (err = none → user = none →
        verifyLogin (fun _ k => k err user) (fun u pw k => k (verify u pw)) setTimeout
          username password callback = setTimeout (callback none .no) 1000) ∧
      (∀ u e, err = none → user = some u → verify u password = some e →
        verifyLogin (fun _ k => k err user) (fun u pw k => k (verify u pw)) setTimeout
          username password callback = setTimeout (callback none .no) 1000) ∧
      (∀ u, err = none → user = some u → verify u password = none →
        verifyLogin (fun _ k => k err user) (fun u pw k => k (verify u pw)) setTimeout
          username password callback = callback none (.user u)) ∧
      (verifyLoginCalls err user verify username password).length = 1 ∧
      (∀ e s, (some e, s) ∈ verifyLoginCalls err user verify username password →
        err = some e ∧ s = .undefined) ∧
      (∀ e u, (e, Second.user u) ∈ verifyLoginCalls err user verify username password →
        e = none ∧ err = none ∧ user = some u ∧ verify u password = none) ∧
      (∀ e, (e, Second.no) ∈ verifyLoginCalls err user verify username password →
        e = none ∧ err = none ∧
          (user = none ∨ ∃ u e2, user = some u ∧ verify u password = some e2)) := by
  refine ⟨?_, ?_, ?_, ?_, ?_, ?_, ?_, ?_⟩
  · intro e he
    subst he
    rfl
  · intro he hu
    subst he hu
    rfl
  · intro u e he hu hv
    subst he hu
    simp only [verifyLogin, hv]
  · intro u he hu hv
    subst he hu
    simp only [verifyLogin, hv]
  · cases err with
    | some e => rfl
    | none =>
      cases user with
      | none => rfl
      | some u =>
        cases hv : verify u password with
        | none => simp [verifyLoginCalls, verifyLogin, hv]
        | some e => simp [verifyLoginCalls, verifyLogin, hv]
  · intro e s hmem
    cases err with
    | some e0 =>
      simp only [verifyLoginCalls, verifyLogin, List.mem_singleton, Prod.mk.injEq] at hmem
      exact ⟨by rw [hmem.1], hmem.2⟩
    | none =>
      cases user with
      | none =>
        simp [verifyLoginCalls, verifyLogin] at hmem
      | some u =>
        cases hv : verify u password with
        | none => simp [verifyLoginCalls, verifyLogin, hv] at hmem
        | some e2 => simp [verifyLoginCalls, verifyLogin, hv] at hmem
  · intro e u hmem
    cases err with
    | some e0 =>
      simp [verifyLoginCalls, verifyLogin] at hmem
    | none =>
      cases user with
      | none =>
        simp [verifyLoginCalls, verifyLogin] at hmem
      | some u0 =>
        cases hv : verify u0 password with
        | none =>
          simp only [verifyLoginCalls, verifyLogin, hv, List.mem_singleton, Prod.mk.injEq,
            Second.user.injEq] at hmem
          obtain ⟨h1, h2⟩ := hmem
          subst h1 h2
          exact ⟨rfl, rfl, rfl, hv⟩
        | some e2 => simp [verifyLoginCalls, verifyLogin, hv] at hmem
  · intro e hmem
    cases err with
    | some e0 =>
      simp [verifyLoginCalls, verifyLogin] at hmem
    | none =>
      cases user with
      | none =>
        simp only [verifyLoginCalls, verifyLogin, List.mem_singleton, Prod.mk.injEq] at hmem
        exact ⟨hmem.1, rfl, Or.inl rfl⟩
      | some u0 =>
        cases hv : verify u0 password with
        | none => simp [verifyLoginCalls, verifyLogin, hv] at hmem
        | some e2 =>
          simp only [verifyLoginCalls, verifyLogin, hv, List.mem_singleton,
            Prod.mk.injEq] at hmem
          exact ⟨hmem.1, rfl, Or.inr ⟨u0, e2, rfl, hv⟩⟩

/-- C20, on the four outcomes, with users named by strings. -/
theorem verifyLogin_outcomes_witness :
    verifyLoginCalls (some "db down") (some "ann") (fun _ _ => none) "ann" "secret" =
        [(some "db down", Second.undefined)] ∧
      verifyLoginCalls none (none : Option String) (fun _ _ => none) "ann" "secret" =
        [(none, Second.no)] ∧
      verifyLoginCalls none (some "ann") (fun _ _ => some "wrong") "ann" "secret" =
        [(none, Second.no)] ∧
      verifyLoginCalls none (some "ann") (fun _ _ => none) "ann" "secret" =
        [(none, Second.user "ann")] := by
  refine ⟨?_, ?_, ?_, ?_⟩
  · exact (verifyLogin_outcomes (some "db down") (some "ann") (fun _ _ => none)
      (fun r _ => r) "ann" "secret" (fun e s => [(e, s)])).1 "db down" rfl
  · exact (verifyLogin_outcomes none (none : Option String) (fun _ _ => none)
      (fun r _ => r) "ann" "secret" (fun e s => [(e, s)])).2.1 rfl rfl
  · exact (verifyLogin_outcomes none (some "ann") (fun _ _ => some "wrong")
      (fun r _ => r) "ann" "secret" (fun e s => [(e, s)])).2.2.1 "ann" "wrong" rfl rfl rfl
  · exact (verifyLogin_outcomes none (some "ann") (fun _ _ => none)
      (fun r _ => r) "ann" "secret" (fun e s => [(e, s)])).2.2.2.1 "ann" rfl rfl rfl

end Login
